import Mathlib

/-!
Verification of the streaming feature/decode scheduler of the SAPC Track-2
baseline (`track2_starting_kit/streaming_zipformer/model.py`).

The sample type `α` is kept abstract (it stands for the floating-point audio
samples and feature energies); the external kaldifeat `Fbank` extractor, the
icefall decode step and the BPE detokenizer are abstracted as function
parameters, constrained only by the contracts the specification states for
them.  All control flow, buffer bookkeeping and arithmetic of the
`DecodeStream` subclass and the `Model` facade are translated directly from
the source.
-/

/-- Configuration and external collaborators of one `DecodeStream`
(`DecodeStream.__init__`, lines 100-128): frame shift/length in samples
(`int(sample_rate * 10 / 1000)` and `int(sample_rate * 25 / 1000)`),
the `pad_length` attribute inherited from the icefall base class, the
sentinel `LOG_EPS` value, and the kaldifeat `Fbank` extractor, which the
constructor builds with a hard-coded `opts.mel_opts.num_bins = 80`.
`featureDim` records the configured feature dimensionality
(`params.feature_dim`), which the stream code never reads. -/
structure FeatCfg (α : Type) where
  frameShift : Nat
  frameLength : Nat
  padLength : Nat
  logEps : α
  fbank : List α → List (List α)
  featureDim : Nat

/-- Modelled from the spec: the kaldifeat `Fbank` extractor (external, not
under `src/`) uses a sliding window of `frameLength` samples advanced by
`frameShift` samples and emits one frame per full window (snip-edges
behaviour), so a signal of `n` samples yields `0` frames when `n` is shorter
than one analysis window and `(n - frameLength) / frameShift + 1` frames
otherwise.  Theorems take this as an explicit hypothesis `hlen` on
`FeatCfg.fbank`. -/
def numFramesOf {α : Type} (C : FeatCfg α) (n : Nat) : Nat :=
  if n < C.frameLength then 0 else (n - C.frameLength) / C.frameShift + 1

/-- State of one `DecodeStream` (subclass fields from `model.py` lines
109-128 plus the base-class fields the subclass manipulates:
`features`, `num_frames`, `num_processed_frames`, the token hypothesis and
the `done` flag, all starting zeroed/empty per spec section 4.5). -/
structure DStream (α Tok : Type) where
  audioSamples : List (List α)
  isInputFinished : Bool
  incremental : Bool
  features : List (List α)
  numFrames : Nat
  numProcessedFrames : Nat
  numStableFrames : Nat
  totalAudioSamples : Nat
  hyp : List Tok
  done : Bool

/-- A freshly constructed stream (`DecodeStream.__init__` together with the
zeroed base-class session state of spec section 4.5: empty raw-audio buffer,
no features, empty token hypothesis, cursors at zero). -/
def DStream.init {α Tok : Type} (incremental : Bool) : DStream α Tok :=
  { audioSamples := []
    isInputFinished := false
    incremental := incremental
    features := []
    numFrames := 0
    numProcessedFrames := 0
    numStableFrames := 0
    totalAudioSamples := 0
    hyp := []
    done := false }

/-- Modelled from the spec: the second dimension of the feature tensor.  A
torch tensor keeps its width even with zero rows; the extractor is built
with 80 mel bins (`opts.mel_opts.num_bins = 80`, line 120), so an empty
feature tensor has width 80. -/
def featWidth {α : Type} (feats : List (List α)) : Nat :=
  match feats with
  | [] => 80
  | r :: _ => r.length

/-- Modelled from the spec: `torch.nn.functional.pad(feats, (0, 0, 0, n),
value=v)` appends `n` rows of the constant `v`, each as wide as the feature
tensor (lines 170-175 and 218-223). -/
def padTail {α : Type} (feats : List (List α)) (n : Nat) (v : α) : List (List α) :=
  feats ++ List.replicate n (List.replicate (featWidth feats) v)

/-- `DecodeStream._recompute_features` (lines 157-177): concatenate all
received audio, re-extract Fbank features from scratch, and append
`pad_length + 30` sentinel rows once the input is finished. -/
def recomputeFeatures {α Tok : Type} (C : FeatCfg α) (s : DStream α Tok) : DStream α Tok :=
  if s.audioSamples.isEmpty then s
  else
    if s.isInputFinished then
      { s with
        features := padTail (C.fbank s.audioSamples.flatten) (C.padLength + 30) C.logEps,
        numFrames :=
          (padTail (C.fbank s.audioSamples.flatten) (C.padLength + 30) C.logEps).length }
    else
      { s with
        features := C.fbank s.audioSamples.flatten,
        numFrames := (C.fbank s.audioSamples.flatten).length }

/-- First block of `DecodeStream._compute_features_incremental` (lines
194-213): on the first call with at least one full analysis window, extract
everything; on later calls re-extract from one frame before the last stable
frame (sample offset `(num_stable_frames - 1) * frame_shift`), drop the
recomputed overlap frame and append the rest, but only when at least one
frame length plus one frame shift of samples lies past the overlap point;
the raw-audio chunk list is compacted into one chunk whenever features are
recomputed. -/
def incrCompute {α Tok : Type} (C : FeatCfg α) (s : DStream α Tok) : DStream α Tok :=
  if s.numStableFrames = 0 then
    if C.frameLength ≤ s.totalAudioSamples then
      { s with audioSamples := [s.audioSamples.flatten],
               features := C.fbank s.audioSamples.flatten,
               numStableFrames := (C.fbank s.audioSamples.flatten).length }
    else s
  else
    if ((C.frameLength : ℤ) + C.frameShift) ≤
        ((s.totalAudioSamples : ℤ) -
          (((s.numStableFrames - 1) * C.frameShift : Nat) : ℤ)) then
      if 0 < ((C.fbank (s.audioSamples.flatten.drop
          ((s.numStableFrames - 1) * C.frameShift))).drop 1).length then
        { s with audioSamples := [s.audioSamples.flatten],
                 features := s.features ++
                   (C.fbank (s.audioSamples.flatten.drop
                     ((s.numStableFrames - 1) * C.frameShift))).drop 1,
                 numStableFrames := s.features.length +
                   ((C.fbank (s.audioSamples.flatten.drop
                     ((s.numStableFrames - 1) * C.frameShift))).drop 1).length }
      else { s with audioSamples := [s.audioSamples.flatten] }
    else s

/-- Second block of `DecodeStream._compute_features_incremental` (lines
215-234): once input is finished, pad with `pad_length + 30` sentinel rows,
or emit a sentinel-only matrix of hard-coded width 80 when no stable frame
exists. -/
def incrPad {α Tok : Type} (C : FeatCfg α) (s : DStream α Tok) : DStream α Tok :=
  if s.isInputFinished then
    if 0 < s.numStableFrames then
      { s with features := padTail s.features (C.padLength + 30) C.logEps }
    else
      { s with features :=
          List.replicate (C.padLength + 30) (List.replicate 80 C.logEps) }
  else s

/-- Third block of `DecodeStream._compute_features_incremental` (lines
236-237): refresh `num_frames` once finished or once stable frames exist. -/
def incrFrames {α Tok : Type} (s : DStream α Tok) : DStream α Tok :=
  if s.isInputFinished ∨ 0 < s.numStableFrames then
    { s with numFrames := s.features.length }
  else s

/-- `DecodeStream._compute_features_incremental` (lines 181-237): the three
blocks in sequence, after the early return on an empty audio buffer. -/
def computeFeaturesIncremental {α Tok : Type} (C : FeatCfg α) (s : DStream α Tok) :
    DStream α Tok :=
  if s.audioSamples.isEmpty then s
  else incrFrames (incrPad C (incrCompute C s))

/-- `DecodeStream.accept_waveform` (lines 130-139): append the chunk to the
raw-audio list unchanged, then compute features in the configured mode
(updating the incremental sample counter first). -/
def acceptWaveform {α Tok : Type} (C : FeatCfg α) (w : List α) (s : DStream α Tok) :
    DStream α Tok :=
  if s.incremental then
    computeFeaturesIncremental C
      { s with audioSamples := s.audioSamples ++ [w],
               totalAudioSamples := s.totalAudioSamples + w.length }
  else recomputeFeatures C { s with audioSamples := s.audioSamples ++ [w] }

/-- `DecodeStream.input_finished` (lines 147-153): set the finished flag and
run one more feature computation, which applies the tail padding. -/
def streamInputFinished {α Tok : Type} (C : FeatCfg α) (s : DStream α Tok) :
    DStream α Tok :=
  if s.incremental then
    computeFeaturesIncremental C { s with isInputFinished := true }
  else recomputeFeatures C { s with isInputFinished := true }

/-- `DecodeStream.is_ready` (lines 141-145):
`(num_frames - num_processed_frames) >= chunk_size * 2 + pad_length`,
with Python's signed integer subtraction. -/
def isReady {α Tok : Type} (C : FeatCfg α) (chunkSize : Nat) (s : DStream α Tok) : Bool :=
  decide (((chunkSize * 2 + C.padLength : Nat) : ℤ) ≤
    ((s.numFrames : ℤ) - (s.numProcessedFrames : ℤ)))

/-- Feed a list of chunks one `accept_waveform` call at a time, starting
from a fresh stream in the given mode. -/
def ingest {α Tok : Type} (C : FeatCfg α) (incremental : Bool)
    (chunks : List (List α)) : DStream α Tok :=
  chunks.foldl (fun s c => acceptWaveform C c s) (DStream.init incremental)

/-- Configuration and external collaborators of the `Model` facade
(`Model.__init__` / `config.yaml`): the feature configuration, sample rate,
encoder chunk size, the `features.mode == "incremental"` switch read in
`reset`, the BPE detokenizer `sp.decode`, and an oracle abstracting the
token emissions and finished flag of the acoustic decode step. -/
structure ModelCtx (α Tok Text : Type) where
  C : FeatCfg α
  sampleRate : Nat
  chunkSize : Nat
  incrementalMode : Bool
  detok : List Tok → Text
  oracleTok : DStream α Tok → List Tok
  oracleFlag : DStream α Tok → Bool
  zeroSample : α

/-- Modelled from the spec: the base class's `decoding_result()` (external,
not under `src/`) returns the accumulated token hypothesis of the session
(spec section 3, Token Hypothesis). -/
def decodingResult {α Tok : Type} (s : DStream α Tok) : List Tok :=
  s.hyp

/-- Modelled from the spec: icefall's `decode_one_chunk` (external, not
under `src/`) consumes one chunk's worth (`2 * chunk_size` feature frames)
of unprocessed frames, advances the processed-frames cursor by that amount,
appends the newly emitted token ids to the hypothesis, and reports whether
the stream can make no further progress (spec sections 4.4 and 6).  The
emitted tokens and the flag are abstracted by the oracle in `ModelCtx`. -/
def decodeOneChunk {α Tok Text : Type} (M : ModelCtx α Tok Text)
    (s : DStream α Tok) : DStream α Tok × Bool :=
  ({ s with numProcessedFrames := s.numProcessedFrames + 2 * M.chunkSize,
            hyp := s.hyp ++ M.oracleTok s,
            done := M.oracleFlag s }, M.oracleFlag s)

/-- `Model._decode_available` (lines 368-377), with an explicit fuel bound
on the `while` loop: while the stream is ready and not done, run one decode
step; stop without a callback when the step reports exhaustion, otherwise
record one callback invocation carrying the detokenized full hypothesis.
Returns the final stream and the list of callback payloads in invocation
order. -/
def decodeAvailableAux {α Tok Text : Type} (M : ModelCtx α Tok Text) :
    Nat → DStream α Tok → DStream α Tok × List Text
  | 0, s => (s, [])
  | fuel + 1, s =>
    if isReady M.C M.chunkSize s && !s.done then
      if (decodeOneChunk M s).2 then ((decodeOneChunk M s).1, [])
      else
        ((decodeAvailableAux M fuel (decodeOneChunk M s).1).1,
          M.detok (decodingResult (decodeOneChunk M s).1) ::
            (decodeAvailableAux M fuel (decodeOneChunk M s).1).2)
    else (s, [])

/-- `Model._decode_available` with fuel sufficient for the loop to reach its
natural exit whenever the chunk size is positive. -/
def decodeAvailable {α Tok Text : Type} (M : ModelCtx α Tok Text)
    (s : DStream α Tok) : DStream α Tok × List Text :=
  decodeAvailableAux M (s.numFrames + 1) s

/-- One utterance session of the `Model` facade: the current stream (`None`
until `reset` is first called) and the log of partial-result callback
invocations, in order. -/
structure Session (α Tok Text : Type) where
  stream : Option (DStream α Tok)
  emitted : List Text

/-- `Model` errors observable at the facade: calling into a session whose
stream is `None` raises (`AttributeError` on `self._stream`). -/
inductive ModelErr
  | noStream
deriving DecidableEq

/-- `Model.reset` (lines 292-304): install a fresh stream in the configured
mode. -/
def modelReset {α Tok Text : Type} (M : ModelCtx α Tok Text)
    (sess : Session α Tok Text) : Session α Tok Text :=
  { sess with stream := some (DStream.init M.incrementalMode) }

/-- `Model.accept_chunk` (lines 306-312): feed the chunk to the stream,
decode as many chunks as are ready (logging one callback per successful
step), and return the detokenized current hypothesis. -/
def modelAcceptChunk {α Tok Text : Type} (M : ModelCtx α Tok Text)
    (w : List α) (sess : Session α Tok Text) :
    Except ModelErr (Session α Tok Text × Text) :=
  match sess.stream with
  | none => .error .noStream
  | some s =>
    .ok ({ stream := some (decodeAvailable M (acceptWaveform M.C w s)).1,
           emitted := sess.emitted ++ (decodeAvailable M (acceptWaveform M.C w s)).2 },
         M.detok (decodingResult (decodeAvailable M (acceptWaveform M.C w s)).1))

/-- `Model.input_finished` (lines 314-321): append `int(sample_rate * 0.3)`
zero samples (modelled as `sampleRate * 3 / 10`, exact at the default
16 kHz), signal stream termination, run the decode loop, and return the
final detokenized hypothesis. -/
def modelInputFinished {α Tok Text : Type} (M : ModelCtx α Tok Text)
    (sess : Session α Tok Text) :
    Except ModelErr (Session α Tok Text × Text) :=
  match sess.stream with
  | none => .error .noStream
  | some s =>
    .ok ({ stream := some (decodeAvailable M (streamInputFinished M.C
             (acceptWaveform M.C
               (List.replicate (M.sampleRate * 3 / 10) M.zeroSample) s))).1,
           emitted := sess.emitted ++ (decodeAvailable M (streamInputFinished M.C
             (acceptWaveform M.C
               (List.replicate (M.sampleRate * 3 / 10) M.zeroSample) s))).2 },
         M.detok (decodingResult (decodeAvailable M (streamInputFinished M.C
           (acceptWaveform M.C
             (List.replicate (M.sampleRate * 3 / 10) M.zeroSample) s))).1))

/-- One legal operation on a live stream during a session's life (spec
section 5: chunk, chunk, ..., finish, with decode steps run by the
scheduler loop whenever the stream is ready). -/
inductive NextOp {α Tok Text : Type} (M : ModelCtx α Tok Text) :
    DStream α Tok → DStream α Tok → Prop
  | accept (s : DStream α Tok) (w : List α) :
      s.isInputFinished = false → NextOp M s (acceptWaveform M.C w s)
  | finish (s : DStream α Tok) :
      s.isInputFinished = false → NextOp M s (streamInputFinished M.C s)
  | decode (s : DStream α Tok) :
      isReady M.C M.chunkSize s = true → s.done = false →
      NextOp M s (decodeOneChunk M s).1

/-- The stream states reachable during one session's life, starting from
the fresh stream installed by `reset`. -/
def Reach {α Tok Text : Type} (M : ModelCtx α Tok Text) (s : DStream α Tok) : Prop :=
  Relation.ReflTransGen (NextOp M) (DStream.init M.incrementalMode) s

/-- The states the scheduler loop passes through after each successful
(non-exhausted) decode step, in emission order.  This is the spec-side
description of the callback protocol of spec sections 4.5 and 6, used to
state the callback claims. -/
def decodeTrace {α Tok Text : Type} (M : ModelCtx α Tok Text) :
    Nat → DStream α Tok → List (DStream α Tok)
  | 0, _ => []
  | fuel + 1, s =>
    if isReady M.C M.chunkSize s && !s.done then
      if (decodeOneChunk M s).2 then []
      else (decodeOneChunk M s).1 :: decodeTrace M fuel (decodeOneChunk M s).1
    else []

/-- Modelled from the spec: the normalization the spec claims for malformed
audio, "stereo averaged to mono" (spec sections 4.5 and 7).  A chunk is a
list of samples, each sample a list of per-channel values; averaging
collapses each sample to one channel. -/
def specAvgToMono (w : List (List ℤ)) : List (List ℤ) :=
  w.map (fun smp => [smp.sum / (smp.length : ℤ)])

/-- One frame of the concrete windowed-sum extractor used by the witnesses:
the sum of the 3-sample window starting at sample `2 * j`. -/
def toyFrame (a : List ℤ) (j : Nat) : List ℤ :=
  [a.getD (2 * j) 0 + a.getD (2 * j + 1) 0 + a.getD (2 * j + 2) 0]

/-- The windowed-sum extractor used to instantiate the abstract `Fbank`
contract in the concrete witnesses: frame shift 2, frame length 3, each
frame a pure function of its own window. -/
def toyFbank (a : List ℤ) : List (List ℤ) :=
  (List.range (if a.length < 3 then 0 else (a.length - 3) / 2 + 1)).map (toyFrame a)

/-- Concrete configuration for the witnesses, built around `toyFbank`. -/
def toyCfg : FeatCfg ℤ :=
  { frameShift := 2, frameLength := 3, padLength := 1, logEps := -23,
    fbank := toyFbank, featureDim := 100 }

/-- A stereo chunk: each sample carries two channel values. -/
def stereoChunk : List (List ℤ) := [[0, 2], [4, 6]]

/-- Concrete configuration over stereo-shaped samples, to exercise
`accept_waveform` on malformed (two-channel) audio. -/
def stereoCfg : FeatCfg (List ℤ) :=
  { frameShift := 2, frameLength := 3, padLength := 1, logEps := [],
    fbank := fun _ => [], featureDim := 80 }

/-- Modelled from the spec (section 4.1): the extractor's frame count law —
a signal yields `numFramesOf` frames. -/
def FbankLen {α : Type} (C : FeatCfg α) : Prop :=
  ∀ a : List α, (C.fbank a).length = numFramesOf C a.length

/-- Modelled from the spec (section 4.1): frames are pure functions of
their own analysis window, so extending the signal on the right never
changes already-producible frames. -/
def FbankLocal {α : Type} (C : FeatCfg α) : Prop :=
  ∀ (a b : List α) (j : Nat), j < (C.fbank a).length →
    (C.fbank (a ++ b))[j]? = (C.fbank a)[j]?

/-- Modelled from the spec (sections 4.1 and 4.3): running the extractor on
a suffix that starts a whole number of frame shifts into the signal
reproduces the full-signal frames from that frame index on, except possibly
for the first frame of the suffix (the pre-emphasis edge effect), which the
incremental algorithm discards. -/
def FbankShift {α : Type} (C : FeatCfg α) : Prop :=
  ∀ (a : List α) (k j : Nat), 1 ≤ j →
    k * C.frameShift + C.frameLength ≤ a.length →
    (C.fbank (a.drop (k * C.frameShift)))[j]? = (C.fbank a)[k + j]?

/-- The invariant tying an incremental-mode stream to the audio it has
ingested, while input is still live: the sample counter matches the buffer,
the committed features are exactly the extractor's output on the whole
buffered audio, and the stable-frame and frame counters match the feature
sequence. -/
def IncInv {α Tok : Type} (C : FeatCfg α) (s : DStream α Tok) : Prop :=
  s.incremental = true ∧ s.isInputFinished = false ∧
  s.totalAudioSamples = s.audioSamples.flatten.length ∧
  s.features = C.fbank s.audioSamples.flatten ∧
  s.numStableFrames = s.features.length ∧
  s.numFrames = s.features.length

/-- The safety invariant carried across a session's life: the processed
cursor never exceeds the frame count, the frame counter matches the feature
sequence, a live full-recompute stream's features are the extractor's
output on the buffered audio, and a live incremental stream with no stable
frames has no features yet. -/
def BaseInv {α Tok : Type} (C : FeatCfg α) (s : DStream α Tok) : Prop :=
  s.numProcessedFrames ≤ s.numFrames ∧
  s.numFrames = s.features.length ∧
  (s.incremental = false → s.isInputFinished = false →
    (s.audioSamples = [] ∧ s.features = []) ∨
      s.features = C.fbank s.audioSamples.flatten) ∧
  (s.incremental = true → s.isInputFinished = false → s.numStableFrames = 0 →
    s.features = [])

/-- Concrete model context over `toyCfg`: 10 Hz sample rate (so the 0.3 s
tail is 3 samples), chunk size 100 (so the decode loop never fires),
incremental mode, identity detokenizer, trivial decode oracle. -/
def toyCtx : ModelCtx ℤ ℤ (List ℤ) :=
  { C := toyCfg, sampleRate := 10, chunkSize := 100, incrementalMode := true,
    detok := fun l => l, oracleTok := fun s => [(s.numProcessedFrames : ℤ)],
    oracleFlag := fun _ => false, zeroSample := 0 }

/-- Concrete model context like `toyCtx` but with chunk size 1, so the
decode loop runs and emits callback payloads. -/
def loopCtx : ModelCtx ℤ ℤ (List ℤ) :=
  { C := toyCfg, sampleRate := 10, chunkSize := 1, incrementalMode := true,
    detok := fun l => l, oracleTok := fun s => [(s.numProcessedFrames : ℤ)],
    oracleFlag := fun _ => false, zeroSample := 0 }

/-- A width-80 instantiation of the extractor contract: every frame is an
80-wide row, with the window-count law of `numFramesOf`. -/
def wideFbank (a : List ℤ) : List (List ℤ) :=
  List.replicate (numFramesOf toyCfg a.length) (List.replicate 80 0)

/-- `toyCfg` with the width-80 extractor. -/
def wideCfg : FeatCfg ℤ :=
  { frameShift := 2, frameLength := 3, padLength := 1, logEps := -23,
    fbank := wideFbank, featureDim := 100 }

/-- Model context over `wideCfg`. -/
def wideCtx : ModelCtx ℤ ℤ (List ℤ) :=
  { C := wideCfg, sampleRate := 10, chunkSize := 1, incrementalMode := true,
    detok := fun l => l, oracleTok := fun _ => [], oracleFlag := fun _ => false,
    zeroSample := 0 }

/-- A session that received a 2-sample chunk (shorter than the 3-sample
analysis window, so no stable frame exists) after `reset`. -/
def sess4 : Session ℤ ℤ (List ℤ) :=
  match modelAcceptChunk toyCtx [1, 2]
      (modelReset toyCtx { stream := none, emitted := [] }) with
  | .ok p => p.1
  | .error _ => { stream := none, emitted := [] }

/-- The stream state held by `sess4`: one 2-sample chunk buffered, no
features yet. -/
def s4 : DStream ℤ ℤ :=
  { audioSamples := [[1, 2]], isInputFinished := false, incremental := true,
    features := [], numFrames := 0, numProcessedFrames := 0, numStableFrames := 0,
    totalAudioSamples := 2, hyp := [], done := false }

/-- A freshly reset session. -/
def sess8 : Session ℤ ℤ (List ℤ) :=
  modelReset toyCtx { stream := none, emitted := [] }

/-- The session after one completed `input_finished` call (state DONE). -/
def sess8b : Session ℤ ℤ (List ℤ) :=
  match modelInputFinished toyCtx sess8 with
  | .ok p => p.1
  | .error _ => sess8

theorem features_incrFrames {α Tok : Type} (s : DStream α Tok) :
    (incrFrames s).features = s.features := by
  unfold incrFrames
  split <;> rfl

theorem finished_incrCompute {α Tok : Type} (C : FeatCfg α) (s : DStream α Tok) :
    (incrCompute C s).isInputFinished = s.isInputFinished := by
  unfold incrCompute
  split
  · split <;> rfl
  · split
    · split <;> rfl
    · rfl

theorem stable_incrCompute_pos {α Tok : Type} (C : FeatCfg α) (s : DStream α Tok)
    (h : 0 < s.numStableFrames) : 0 < (incrCompute C s).numStableFrames := by
  unfold incrCompute
  rw [if_neg (by omega)]
  split
  · split
    · next hn =>
      dsimp only
      omega
    · exact h
  · exact h

theorem incrPad_not_finished {α Tok : Type} (C : FeatCfg α) (s : DStream α Tok)
    (h : s.isInputFinished = false) : incrPad C s = s := by
  unfold incrPad
  rw [h]
  simp

theorem flatten_incrCompute {α Tok : Type} (C : FeatCfg α) (s : DStream α Tok) :
    (incrCompute C s).audioSamples.flatten = s.audioSamples.flatten := by
  unfold incrCompute
  split
  · split <;> simp
  · split
    · split <;> simp
    · simp

theorem flatten_computeFeaturesIncremental {α Tok : Type} (C : FeatCfg α)
    (s : DStream α Tok) :
    (computeFeaturesIncremental C s).audioSamples.flatten = s.audioSamples.flatten := by
  unfold computeFeaturesIncremental
  split
  · rfl
  · have h1 : (incrPad C (incrCompute C s)).audioSamples =
        (incrCompute C s).audioSamples := by
      unfold incrPad
      split
      · split <;> rfl
      · rfl
    have h2 : (incrFrames (incrPad C (incrCompute C s))).audioSamples =
        (incrPad C (incrCompute C s)).audioSamples := by
      unfold incrFrames
      split <;> rfl
    rw [h2, h1, flatten_incrCompute]

theorem audio_recomputeFeatures {α Tok : Type} (C : FeatCfg α) (s : DStream α Tok) :
    (recomputeFeatures C s).audioSamples = s.audioSamples := by
  unfold recomputeFeatures
  split
  · rfl
  · split <;> rfl

theorem flatten_acceptWaveform {α Tok : Type} (C : FeatCfg α) (w : List α)
    (s : DStream α Tok) :
    (acceptWaveform C w s).audioSamples.flatten = s.audioSamples.flatten ++ w := by
  unfold acceptWaveform
  split
  · rw [flatten_computeFeaturesIncremental]
    simp
  · rw [audio_recomputeFeatures]
    simp

/-- C2: `is_ready(chunk_size)` is true iff
(total frames − processed frames) ≥ 2×chunk_size + pad_length; at exactly
the boundary value the stream is ready, and one frame short it is not. -/
theorem claim_C2_is_ready_iff {α Tok : Type} (C : FeatCfg α) (chunkSize : Nat)
    (s : DStream α Tok) :
    (isReady C chunkSize s = true ↔
      ((chunkSize * 2 + C.padLength : Nat) : ℤ) ≤
        (s.numFrames : ℤ) - (s.numProcessedFrames : ℤ)) ∧
    ((s.numFrames : ℤ) - (s.numProcessedFrames : ℤ) =
        ((chunkSize * 2 + C.padLength : Nat) : ℤ) →
      isReady C chunkSize s = true) ∧
    ((s.numFrames : ℤ) - (s.numProcessedFrames : ℤ) =
        ((chunkSize * 2 + C.padLength : Nat) : ℤ) - 1 →
      isReady C chunkSize s = false) := by
  unfold isReady
  refine ⟨decide_eq_true_iff, fun h => ?_, fun h => ?_⟩
  · rw [decide_eq_true_iff]
    omega
  · rw [decide_eq_false_iff_not]
    omega

/-- Witness for C2, at the boundary `num_frames = 5 = 2*2 + 1` and one
frame short of it. -/
theorem claim_C2_is_ready_iff_witness :
    isReady toyCfg 2 { (DStream.init true : DStream ℤ ℤ) with numFrames := 5 } = true ∧
    isReady toyCfg 2 { (DStream.init true : DStream ℤ ℤ) with numFrames := 4 } = false := by
  constructor
  · exact (claim_C2_is_ready_iff toyCfg 2 _).2.1 (by decide)
  · exact (claim_C2_is_ready_iff toyCfg 2 _).2.2 (by decide)

/-- C6 counterexample: a stereo chunk fed to `accept_waveform` is stored in
the raw audio buffer verbatim, and it differs from the stereo-averaged-to-
mono chunk the claim says the code produces, so malformed audio is not
normalized. -/
theorem claim_C6_counterexample :
    (acceptWaveform stereoCfg stereoChunk
        (DStream.init false : DStream (List ℤ) ℤ)).audioSamples = [stereoChunk] ∧
    stereoChunk ≠ specAvgToMono stereoChunk := by
  constructor
  · rfl
  · decide

/-- C6 (amended): `accept_chunk` performs no normalization and no
validation: in both feature modes every chunk's samples are appended to the
raw audio buffer unchanged (in particular a stereo chunk is not averaged to
mono), and no error is surfaced at ingestion. -/
theorem claim_C6_chunk_stored_verbatim {α Tok : Type} (C : FeatCfg α)
    (w : List α) (s : DStream α Tok) :
    (acceptWaveform C w s).audioSamples.flatten = s.audioSamples.flatten ++ w :=
  flatten_acceptWaveform C w s

theorem features_incrCompute_wait {α Tok : Type} (C : FeatCfg α) (s : DStream α Tok)
    (hst : 0 < s.numStableFrames)
    (h : ((s.totalAudioSamples : ℤ) -
        (((s.numStableFrames - 1) * C.frameShift : Nat) : ℤ)) <
      ((C.frameLength : ℤ) + C.frameShift)) :
    incrCompute C s = s := by
  unfold incrCompute
  rw [if_neg (by omega), if_neg (by omega)]

theorem features_incrCompute_pos {α Tok : Type} (C : FeatCfg α) (s : DStream α Tok)
    (hst : 0 < s.numStableFrames)
    (h : ((C.frameLength : ℤ) + C.frameShift) ≤
      ((s.totalAudioSamples : ℤ) -
        (((s.numStableFrames - 1) * C.frameShift : Nat) : ℤ))) :
    (incrCompute C s).features =
      s.features ++ (C.fbank (s.audioSamples.flatten.drop
        ((s.numStableFrames - 1) * C.frameShift))).drop 1 := by
  unfold incrCompute
  rw [if_neg (by omega), if_pos h]
  split
  · rfl
  · next hn =>
    have hz : (C.fbank (s.audioSamples.flatten.drop
        ((s.numStableFrames - 1) * C.frameShift))).drop 1 = [] := by
      have := Nat.eq_zero_of_not_pos hn
      exact List.length_eq_zero.mp this
    rw [hz, List.append_nil]

/-- C3: once at least one stable frame exists, an ingestion re-extracts
features only from sample offset `(num_stable_frames - 1) * frame_shift` to
the end of the buffer, discards the first recomputed frame and appends the
rest; when fewer than one frame length plus one frame shift of samples lie
past the overlap point, the feature sequence is left unchanged to wait for
more audio. -/
theorem claim_C3_incremental_step {α Tok : Type} (C : FeatCfg α) (c : List α)
    (s : DStream α Tok) (hinc : s.incremental = true)
    (hfin : s.isInputFinished = false) (hst : 0 < s.numStableFrames) :
    (((C.frameLength : ℤ) + C.frameShift) ≤
        (((s.totalAudioSamples + c.length : Nat) : ℤ) -
          (((s.numStableFrames - 1) * C.frameShift : Nat) : ℤ)) →
      (acceptWaveform C c s).features =
        s.features ++
          (C.fbank ((s.audioSamples.flatten ++ c).drop
            ((s.numStableFrames - 1) * C.frameShift))).drop 1) ∧
    ((((s.totalAudioSamples + c.length : Nat) : ℤ) -
          (((s.numStableFrames - 1) * C.frameShift : Nat) : ℤ)) <
        ((C.frameLength : ℤ) + C.frameShift) →
      (acceptWaveform C c s).features = s.features) := by
  have hs2 : acceptWaveform C c s =
      computeFeaturesIncremental C
        { s with audioSamples := s.audioSamples ++ [c],
                 totalAudioSamples := s.totalAudioSamples + c.length } := by
    unfold acceptWaveform
    rw [if_pos hinc]
  have hne : (({ s with audioSamples := s.audioSamples ++ [c],
                        totalAudioSamples := s.totalAudioSamples + c.length } :
        DStream α Tok)).audioSamples.isEmpty = false := by
    simp
  constructor
  · intro h
    rw [hs2]
    unfold computeFeaturesIncremental
    rw [hne]
    simp only [Bool.false_eq_true, if_false]
    rw [features_incrFrames]
    rw [incrPad_not_finished C _ (by rw [finished_incrCompute]; exact hfin)]
    rw [features_incrCompute_pos C _ (by dsimp only; omega)
      (by dsimp only; exact h)]
    simp
  · intro h
    rw [hs2]
    unfold computeFeaturesIncremental
    rw [hne]
    simp only [Bool.false_eq_true, if_false]
    rw [features_incrFrames]
    rw [incrPad_not_finished C _ (by rw [finished_incrCompute]; exact hfin)]
    rw [features_incrCompute_wait C _ (by dsimp only; omega)
      (by dsimp only; exact h)]

/-- Witness for C3: a stream holding one stable frame from samples
`[1, 2, 3]`; a 2-sample chunk reaches the recompute threshold and appends
exactly the second toy frame, while an empty chunk leaves features
unchanged. -/
theorem claim_C3_incremental_step_witness :
    (((toyCfg.frameLength : ℤ) + toyCfg.frameShift) ≤
        ((((ingest toyCfg true [[1, 2, 3]] : DStream ℤ ℤ).totalAudioSamples +
            [(4 : ℤ), 5].length : Nat) : ℤ) -
          ((((ingest toyCfg true [[1, 2, 3]] : DStream ℤ ℤ).numStableFrames - 1) *
            toyCfg.frameShift : Nat) : ℤ)) →
      (acceptWaveform toyCfg [(4 : ℤ), 5]
          (ingest toyCfg true [[1, 2, 3]] : DStream ℤ ℤ)).features =
        (ingest toyCfg true [[1, 2, 3]] : DStream ℤ ℤ).features ++
          (toyCfg.fbank
            (((ingest toyCfg true [[1, 2, 3]] : DStream ℤ ℤ).audioSamples.flatten ++
              [(4 : ℤ), 5]).drop
            (((ingest toyCfg true [[1, 2, 3]] : DStream ℤ ℤ).numStableFrames - 1) *
              toyCfg.frameShift))).drop 1) ∧
    (((((ingest toyCfg true [[1, 2, 3]] : DStream ℤ ℤ).totalAudioSamples +
            [(4 : ℤ), 5].length : Nat) : ℤ) -
          ((((ingest toyCfg true [[1, 2, 3]] : DStream ℤ ℤ).numStableFrames - 1) *
            toyCfg.frameShift : Nat) : ℤ)) <
        ((toyCfg.frameLength : ℤ) + toyCfg.frameShift) →
      (acceptWaveform toyCfg [(4 : ℤ), 5]
          (ingest toyCfg true [[1, 2, 3]] : DStream ℤ ℤ)).features =
        (ingest toyCfg true [[1, 2, 3]] : DStream ℤ ℤ).features) :=
  claim_C3_incremental_step toyCfg [(4 : ℤ), 5] _ (by decide) (by decide) (by decide)

theorem numFramesOf_mono {α : Type} (C : FeatCfg α) {m n : Nat} (h : m ≤ n) :
    numFramesOf C m ≤ numFramesOf C n := by
  unfold numFramesOf
  by_cases hm : m < C.frameLength
  · rw [if_pos hm]
    exact Nat.zero_le _
  · rw [if_neg hm, if_neg (by omega)]
    have h3 : (m - C.frameLength) / C.frameShift ≤
        (n - C.frameLength) / C.frameShift :=
      Nat.div_le_div_right (by omega)
    omega

theorem numFramesOf_pos {α : Type} (C : FeatCfg α) {n : Nat}
    (h : C.frameLength ≤ n) : 0 < numFramesOf C n := by
  unfold numFramesOf
  rw [if_neg (by omega)]
  exact Nat.succ_pos _

theorem numFramesOf_eq_zero {α : Type} (C : FeatCfg α) {n : Nat}
    (h : n < C.frameLength) : numFramesOf C n = 0 := by
  unfold numFramesOf
  rw [if_pos h]

/-- When the stable-frame count matches the frame count of the buffered
audio, fewer than one frame length plus one frame shift of samples lie past
the overlap point, and the overlap window itself fits inside the audio. -/
theorem stable_wait {α : Type} (C : FeatCfg α) (hfs : 1 ≤ C.frameShift)
    {total m : Nat} (hfl : C.frameLength ≤ total)
    (hm : m = (total - C.frameLength) / C.frameShift + 1) :
    (m - 1) * C.frameShift + C.frameLength ≤ total ∧
    ((total : ℤ) - (((m - 1) * C.frameShift : Nat) : ℤ)) <
      (C.frameLength : ℤ) + C.frameShift := by
  generalize hq : (total - C.frameLength) / C.frameShift = q at hm
  have hdm : q * C.frameShift + (total - C.frameLength) % C.frameShift =
      total - C.frameLength := by
    rw [← hq]
    exact Nat.div_add_mod' _ _
  have hlt : (total - C.frameLength) % C.frameShift < C.frameShift := by
    apply Nat.mod_lt
    omega
  have hm1 : m - 1 = q := by omega
  rw [hm1]
  generalize q * C.frameShift = P at hdm ⊢
  omega

theorem numFramesOf_shift {α : Type} (C : FeatCfg α) (hfs : 1 ≤ C.frameShift)
    {total k : Nat} (h : k * C.frameShift + C.frameLength ≤ total) :
    numFramesOf C (total - k * C.frameShift) = numFramesOf C total - k := by
  unfold numFramesOf
  rw [if_neg (by omega), if_neg (by omega)]
  have h1 : total - k * C.frameShift - C.frameLength =
      total - C.frameLength - C.frameShift * k := by
    rw [Nat.mul_comm]
    omega
  rw [h1, Nat.sub_mul_div _ _ _ (by rw [Nat.mul_comm] at h; omega)]
  have h2 : k ≤ (total - C.frameLength) / C.frameShift := by
    rw [Nat.le_div_iff_mul_le (by omega)]
    omega
  omega

theorem toyFbank_getElem (a : List ℤ) (j : Nat) :
    (toyFbank a)[j]? =
      if j < numFramesOf toyCfg a.length then some (toyFrame a j) else none := by
  have hc : numFramesOf toyCfg a.length =
      if a.length < 3 then 0 else (a.length - 3) / 2 + 1 := rfl
  unfold toyFbank
  rw [List.getElem?_map]
  by_cases h : j < numFramesOf toyCfg a.length
  · rw [if_pos h, List.getElem?_range (by rw [← hc]; exact h)]
    rfl
  · rw [if_neg h, List.getElem?_eq_none (by rw [List.length_range, ← hc]; omega)]
    rfl

theorem toyFbank_length (a : List ℤ) :
    (toyFbank a).length = numFramesOf toyCfg a.length := by
  unfold toyFbank
  rw [List.length_map, List.length_range]
  rfl

theorem toy_window {n j : Nat} (h : j < numFramesOf toyCfg n) : 2 * j + 3 ≤ n := by
  have hc : numFramesOf toyCfg n = if n < 3 then 0 else (n - 3) / 2 + 1 := rfl
  rw [hc] at h
  by_cases h3 : n < 3
  · rw [if_pos h3] at h
    omega
  · rw [if_neg h3] at h
    omega

theorem toyFrame_append (a b : List ℤ) (j : Nat) (h : 2 * j + 3 ≤ a.length) :
    toyFrame (a ++ b) j = toyFrame a j := by
  unfold toyFrame
  simp only [List.getD_eq_getElem?_getD]
  rw [List.getElem?_append_left (by omega), List.getElem?_append_left (by omega),
    List.getElem?_append_left (by omega)]

theorem toy_len : FbankLen toyCfg :=
  fun a => toyFbank_length a

theorem toy_local : FbankLocal toyCfg := by
  intro a b j hj
  have hfb : toyCfg.fbank = toyFbank := rfl
  rw [hfb] at hj ⊢
  rw [toyFbank_length] at hj
  rw [toyFbank_getElem, toyFbank_getElem, if_pos hj, if_pos ?side]
  case side =>
    calc j < numFramesOf toyCfg a.length := hj
    _ ≤ numFramesOf toyCfg (a ++ b).length :=
      numFramesOf_mono toyCfg (by simp)
  rw [toyFrame_append a b j (toy_window hj)]

theorem toyFrame_drop (a : List ℤ) (k j : Nat) :
    toyFrame (a.drop (k * 2)) j = toyFrame a (k + j) := by
  unfold toyFrame
  simp only [List.getD_eq_getElem?_getD, List.getElem?_drop]
  have e1 : k * 2 + 2 * j = 2 * (k + j) := by ring
  have e2 : k * 2 + (2 * j + 1) = 2 * (k + j) + 1 := by ring
  have e3 : k * 2 + (2 * j + 2) = 2 * (k + j) + 2 := by ring
  rw [e1, e2, e3]

theorem toy_shift : FbankShift toyCfg := by
  intro a k j hj h
  have hfb : toyCfg.fbank = toyFbank := rfl
  have hfs : toyCfg.frameShift = 2 := rfl
  have hfl : toyCfg.frameLength = 3 := rfl
  rw [hfs, hfl] at h
  rw [hfb, hfs]
  rw [toyFbank_getElem, toyFbank_getElem]
  have hdl : (a.drop (k * 2)).length = a.length - k * 2 := List.length_drop _ _
  have hNF : numFramesOf toyCfg (a.length - k * 2) = numFramesOf toyCfg a.length - k := by
    have h2 := @numFramesOf_shift ℤ toyCfg (by rw [hfs]; omega)
      a.length k (by rw [hfs, hfl]; omega)
    rw [hfs] at h2
    exact h2
  have hk : k < numFramesOf toyCfg a.length := by
    have hc : numFramesOf toyCfg a.length =
        if a.length < 3 then 0 else (a.length - 3) / 2 + 1 := rfl
    rw [hc]
    rw [if_neg (by omega)]
    omega
  rw [hdl, hNF]
  by_cases hin : k + j < numFramesOf toyCfg a.length
  · rw [if_pos (by omega), if_pos hin, toyFrame_drop]
  · rw [if_neg (by omega), if_neg hin]

theorem fbank_nil {α : Type} (C : FeatCfg α) (hfl : 1 ≤ C.frameLength)
    (hlen : FbankLen C) : C.fbank ([] : List α) = [] := by
  have h := hlen []
  rw [List.length_nil, numFramesOf_eq_zero C (by omega)] at h
  exact List.length_eq_zero.mp h

theorem numFramesOf_le_of_wait {α : Type} (C : FeatCfg α) (hfs : 1 ≤ C.frameShift)
    {total m : Nat} (hm : 0 < m)
    (h : ((total : ℤ) - (((m - 1) * C.frameShift : Nat) : ℤ)) <
      (C.frameLength : ℤ) + C.frameShift) :
    numFramesOf C total ≤ m := by
  have hmul : m * C.frameShift = (m - 1) * C.frameShift + C.frameShift := by
    conv_lhs => rw [← Nat.succ_pred_eq_of_pos hm]
    rw [Nat.succ_mul]
    rfl
  unfold numFramesOf
  split
  · omega
  · next h2 =>
    have h3 : total - C.frameLength < m * C.frameShift := by
      rw [hmul]
      omega
    have h4 : (total - C.frameLength) / C.frameShift < m :=
      (Nat.div_lt_iff_lt_mul (by omega)).mpr h3
    omega

theorem numFramesOf_ge_of_go {α : Type} (C : FeatCfg α) (hfs : 1 ≤ C.frameShift)
    {total m : Nat} (hm : 0 < m)
    (h : ((C.frameLength : ℤ) + C.frameShift) ≤
      ((total : ℤ) - (((m - 1) * C.frameShift : Nat) : ℤ))) :
    m + 1 ≤ numFramesOf C total := by
  have hmul : m * C.frameShift = (m - 1) * C.frameShift + C.frameShift := by
    conv_lhs => rw [← Nat.succ_pred_eq_of_pos hm]
    rw [Nat.succ_mul]
    rfl
  have hfl_le : C.frameLength + m * C.frameShift ≤ total := by
    rw [hmul]
    omega
  unfold numFramesOf
  rw [if_neg (by omega)]
  have h5 : m ≤ (total - C.frameLength) / C.frameShift := by
    rw [Nat.le_div_iff_mul_le (by omega)]
    omega
  omega

theorem fbank_extend_eq {α : Type} (C : FeatCfg α) (hlen : FbankLen C)
    (hloc : FbankLocal C) (a b : List α)
    (hn : numFramesOf C (a ++ b).length = numFramesOf C a.length) :
    C.fbank (a ++ b) = C.fbank a := by
  apply List.ext_getElem?
  intro j
  by_cases hj : j < (C.fbank a).length
  · exact hloc a b j hj
  · rw [List.getElem?_eq_none (l := C.fbank (a ++ b))
        (by rw [hlen (a ++ b), hn, ← hlen a]; omega),
      List.getElem?_eq_none (by omega)]

theorem incrCompute_first {α Tok : Type} (C : FeatCfg α) (s : DStream α Tok)
    (h0 : s.numStableFrames = 0) (hge : C.frameLength ≤ s.totalAudioSamples) :
    incrCompute C s =
      { s with audioSamples := [s.audioSamples.flatten],
               features := C.fbank s.audioSamples.flatten,
               numStableFrames := (C.fbank s.audioSamples.flatten).length } := by
  unfold incrCompute
  rw [if_pos h0, if_pos hge]

theorem incrCompute_small {α Tok : Type} (C : FeatCfg α) (s : DStream α Tok)
    (h0 : s.numStableFrames = 0) (hlt : ¬ C.frameLength ≤ s.totalAudioSamples) :
    incrCompute C s = s := by
  unfold incrCompute
  rw [if_pos h0, if_neg hlt]

theorem incrCompute_go {α Tok : Type} (C : FeatCfg α) (s : DStream α Tok)
    (hst : 0 < s.numStableFrames)
    (hcond : ((C.frameLength : ℤ) + C.frameShift) ≤
      ((s.totalAudioSamples : ℤ) -
        (((s.numStableFrames - 1) * C.frameShift : Nat) : ℤ)))
    (hpos : 0 < ((C.fbank (s.audioSamples.flatten.drop
      ((s.numStableFrames - 1) * C.frameShift))).drop 1).length) :
    incrCompute C s =
      { s with audioSamples := [s.audioSamples.flatten],
               features := s.features ++ (C.fbank (s.audioSamples.flatten.drop
                 ((s.numStableFrames - 1) * C.frameShift))).drop 1,
               numStableFrames := s.features.length +
                 ((C.fbank (s.audioSamples.flatten.drop
                   ((s.numStableFrames - 1) * C.frameShift))).drop 1).length } := by
  unfold incrCompute
  rw [if_neg (by omega), if_pos hcond, if_pos hpos]

theorem incrFrames_pos {α Tok : Type} (s : DStream α Tok) (h : 0 < s.numStableFrames) :
    incrFrames s = { s with numFrames := s.features.length } := by
  unfold incrFrames
  rw [if_pos (Or.inr h)]

theorem incrFrames_skip {α Tok : Type} (s : DStream α Tok)
    (h1 : s.isInputFinished = false) (h2 : s.numStableFrames = 0) :
    incrFrames s = s := by
  unfold incrFrames
  rw [if_neg (by simp [h1, h2])]

theorem fbank_short {α : Type} (C : FeatCfg α) (hlen : FbankLen C) {x : List α}
    (h : x.length < C.frameLength) : C.fbank x = [] := by
  have h2 := hlen x
  rw [numFramesOf_eq_zero C h] at h2
  exact List.length_eq_zero.mp h2

theorem IncInv_init {α Tok : Type} (C : FeatCfg α) (hfl : 1 ≤ C.frameLength)
    (hlen : FbankLen C) : IncInv C (DStream.init true : DStream α Tok) := by
  refine ⟨rfl, rfl, rfl, ?_, rfl, rfl⟩
  exact (fbank_nil C hfl hlen).symm

theorem IncInv_accept {α Tok : Type} (C : FeatCfg α)
    (hfs : 1 ≤ C.frameShift) (hfl : 1 ≤ C.frameLength)
    (hlen : FbankLen C) (hloc : FbankLocal C) (hsh : FbankShift C)
    (c : List α) (s : DStream α Tok) (hI : IncInv C s) :
    IncInv C (acceptWaveform C c s) := by
  obtain ⟨hinc, hfin, htot, hfeat, hstab, hnum⟩ := hI
  have hacc : acceptWaveform C c s =
      computeFeaturesIncremental C
        { s with audioSamples := s.audioSamples ++ [c],
                 totalAudioSamples := s.totalAudioSamples + c.length } := by
    unfold acceptWaveform
    rw [if_pos hinc]
  rw [hacc]
  set s2 : DStream α Tok :=
    { s with audioSamples := s.audioSamples ++ [c],
             totalAudioSamples := s.totalAudioSamples + c.length } with hs2
  have hs2flat : s2.audioSamples.flatten = s.audioSamples.flatten ++ c := by
    rw [hs2]
    simp
  have hs2tot : s2.totalAudioSamples = s.audioSamples.flatten.length + c.length := by
    rw [hs2]
    dsimp only
    omega
  have htot2 : s2.totalAudioSamples = s2.audioSamples.flatten.length := by
    rw [hs2tot, hs2flat, List.length_append]
  have hs2ne : s2.audioSamples.isEmpty = false := by
    rw [hs2]
    simp
  have hs2fin : s2.isInputFinished = false := by
    rw [hs2]
    exact hfin
  have hcfi : computeFeaturesIncremental C s2 =
      incrFrames (incrPad C (incrCompute C s2)) := by
    unfold computeFeaturesIncremental
    rw [hs2ne]
    simp only [Bool.false_eq_true, if_false]
  rw [hcfi]
  by_cases hcase : s.numStableFrames = 0
  · -- no stable frames yet
    have hfeat0 : s.features = [] := by
      rw [← List.length_eq_zero]
      omega
    have hfb0 : C.fbank s.audioSamples.flatten = [] := by
      rw [← hfeat]
      exact hfeat0
    have hlt : s.audioSamples.flatten.length < C.frameLength := by
      by_contra hge
      have h1 : 0 < (C.fbank s.audioSamples.flatten).length := by
        rw [hlen]
        exact numFramesOf_pos C (by omega)
      rw [hfb0] at h1
      exact absurd h1 (by simp)
    have hs20 : s2.numStableFrames = 0 := hcase
    by_cases hA : C.frameLength ≤ s2.totalAudioSamples
    · rw [incrCompute_first C s2 hs20 hA]
      set u : DStream α Tok :=
        { s2 with audioSamples := [s2.audioSamples.flatten],
                  features := C.fbank s2.audioSamples.flatten,
                  numStableFrames := (C.fbank s2.audioSamples.flatten).length } with hu
      have hufin : u.isInputFinished = false := hs2fin
      rw [incrPad_not_finished C u hufin]
      have hust : 0 < u.numStableFrames := by
        show 0 < (C.fbank s2.audioSamples.flatten).length
        rw [hlen]
        exact numFramesOf_pos C (by omega)
      rw [incrFrames_pos u hust]
      have huflat : u.audioSamples.flatten = s2.audioSamples.flatten := by
        rw [hu]
        simp
      refine ⟨hinc, hs2fin, ?_, ?_, ?_, rfl⟩
      · show s2.totalAudioSamples = u.audioSamples.flatten.length
        rw [huflat, htot2]
      · show C.fbank s2.audioSamples.flatten = C.fbank u.audioSamples.flatten
        rw [huflat]
      · show (C.fbank s2.audioSamples.flatten).length =
          (C.fbank s2.audioSamples.flatten).length
        rfl
    · rw [incrCompute_small C s2 hs20 hA]
      rw [incrPad_not_finished C s2 hs2fin]
      rw [incrFrames_skip s2 hs2fin hs20]
      refine ⟨hinc, hs2fin, htot2, ?_, ?_, ?_⟩
      · show s2.features = C.fbank s2.audioSamples.flatten
        have hshort : s2.audioSamples.flatten.length < C.frameLength := by
          omega
        rw [fbank_short C hlen hshort]
        show s.features = []
        exact hfeat0
      · show s2.numStableFrames = s2.features.length
        show s.numStableFrames = s.features.length
        exact hstab
      · show s2.numFrames = s2.features.length
        show s.numFrames = s.features.length
        exact hnum
  · -- at least one stable frame
    have hmpos : 0 < s.numStableFrames := by omega
    have hmlen : s.numStableFrames = numFramesOf C s.audioSamples.flatten.length := by
      rw [hstab, hfeat, hlen]
    have hflen : C.frameLength ≤ s.audioSamples.flatten.length := by
      by_contra hno
      rw [numFramesOf_eq_zero C (by omega)] at hmlen
      omega
    have hmeq : s.numStableFrames =
        (s.audioSamples.flatten.length - C.frameLength) / C.frameShift + 1 := by
      rw [hmlen]
      unfold numFramesOf
      rw [if_neg (by omega)]
    have hs2st : s2.numStableFrames = s.numStableFrames := rfl
    have hfeats_len : s.features.length = s.numStableFrames := hstab.symm
    obtain ⟨hov, hwait⟩ := stable_wait C hfs hflen hmeq
    by_cases hcond : ((C.frameLength : ℤ) + C.frameShift) ≤
        ((s2.totalAudioSamples : ℤ) -
          (((s2.numStableFrames - 1) * C.frameShift : Nat) : ℤ))
    · -- enough new audio: recompute from the overlap point
      have hcond' : ((C.frameLength : ℤ) + C.frameShift) ≤
          ((s2.totalAudioSamples : ℤ) -
            (((s.numStableFrames - 1) * C.frameShift : Nat) : ℤ)) := hcond
      have hge : s.numStableFrames + 1 ≤
          numFramesOf C s2.audioSamples.flatten.length := by
        have h9 := @numFramesOf_ge_of_go α C hfs
          s2.totalAudioSamples s.numStableFrames hmpos hcond'
        rw [htot2] at h9
        exact h9
      have hovle : (s.numStableFrames - 1) * C.frameShift + C.frameLength ≤
          s2.audioSamples.flatten.length := by
        rw [← htot2]
        omega
      have hfb_drop_len : (C.fbank (s2.audioSamples.flatten.drop
          ((s.numStableFrames - 1) * C.frameShift))).length =
          numFramesOf C s2.audioSamples.flatten.length - (s.numStableFrames - 1) := by
        rw [hlen, List.length_drop, numFramesOf_shift C hfs hovle]
      have hnew_len : ((C.fbank (s2.audioSamples.flatten.drop
          ((s.numStableFrames - 1) * C.frameShift))).drop 1).length =
          numFramesOf C s2.audioSamples.flatten.length - s.numStableFrames := by
        rw [List.length_drop, hfb_drop_len]
        omega
      have hnew_pos : 0 < ((C.fbank (s2.audioSamples.flatten.drop
          ((s.numStableFrames - 1) * C.frameShift))).drop 1).length := by
        rw [hnew_len]
        omega
      rw [incrCompute_go C s2 hmpos hcond hnew_pos]
      set u : DStream α Tok :=
        { s2 with audioSamples := [s2.audioSamples.flatten],
                  features := s2.features ++ (C.fbank (s2.audioSamples.flatten.drop
                    ((s2.numStableFrames - 1) * C.frameShift))).drop 1,
                  numStableFrames := s2.features.length +
                    ((C.fbank (s2.audioSamples.flatten.drop
                      ((s2.numStableFrames - 1) * C.frameShift))).drop 1).length } with hu
      have hufin : u.isInputFinished = false := hs2fin
      rw [incrPad_not_finished C u hufin]
      have hust : 0 < u.numStableFrames := by
        show 0 < s.features.length + _
        omega
      rw [incrFrames_pos u hust]
      have huflat : u.audioSamples.flatten = s2.audioSamples.flatten := by
        rw [hu]
        simp
      have hfeats_eq : s.features ++ (C.fbank (s2.audioSamples.flatten.drop
          ((s.numStableFrames - 1) * C.frameShift))).drop 1 =
          C.fbank s2.audioSamples.flatten := by
        apply List.ext_getElem?
        intro j
        by_cases hj : j < s.numStableFrames
        · rw [List.getElem?_append_left (by omega)]
          rw [hfeat, hs2flat]
          exact (hloc s.audioSamples.flatten c j
            (by rw [← hfeat]; omega)).symm
        · rw [List.getElem?_append_right (by omega)]
          rw [List.getElem?_drop]
          have harg := hsh s2.audioSamples.flatten (s.numStableFrames - 1)
            (1 + (j - s.features.length)) (by omega) hovle
          rw [harg]
          have hidx : s.numStableFrames - 1 + (1 + (j - s.features.length)) = j := by
            omega
          rw [hidx]
      refine ⟨hinc, hs2fin, ?_, ?_, ?_, rfl⟩
      · show s2.totalAudioSamples = u.audioSamples.flatten.length
        rw [huflat, htot2]
      · show s2.features ++ _ = C.fbank u.audioSamples.flatten
        rw [huflat]
        exact hfeats_eq
      · show s2.features.length + _ = (s2.features ++ _).length
        rw [List.length_append]
    · -- waiting: not enough new audio past the overlap point
      have hcond2 : ((s2.totalAudioSamples : ℤ) -
          (((s2.numStableFrames - 1) * C.frameShift : Nat) : ℤ)) <
          ((C.frameLength : ℤ) + C.frameShift) := by omega
      rw [features_incrCompute_wait C s2 hmpos hcond2]
      rw [incrPad_not_finished C s2 hs2fin]
      rw [incrFrames_pos s2 hmpos]
      have hle : numFramesOf C s2.audioSamples.flatten.length ≤ s.numStableFrames := by
        have h9 := @numFramesOf_le_of_wait α C hfs
          s2.totalAudioSamples s.numStableFrames hmpos hcond2
        rw [htot2] at h9
        exact h9
      have hgeqm : numFramesOf C s2.audioSamples.flatten.length = s.numStableFrames := by
        have hmo := numFramesOf_mono C (m := s.audioSamples.flatten.length)
          (n := s2.audioSamples.flatten.length)
          (by rw [hs2flat, List.length_append]; omega)
        omega
      have hfbeq : C.fbank s2.audioSamples.flatten = C.fbank s.audioSamples.flatten := by
        rw [hs2flat]
        have hn : numFramesOf C (s.audioSamples.flatten ++ c).length =
            numFramesOf C s.audioSamples.flatten.length := by
          rw [← hs2flat]
          omega
        exact fbank_extend_eq C hlen hloc _ c hn
      refine ⟨hinc, hs2fin, htot2, ?_, ?_, rfl⟩
      · show s2.features = C.fbank s2.audioSamples.flatten
        rw [hfbeq]
        exact hfeat
      · show s2.numStableFrames = s2.features.length
        exact hstab

theorem IncInv_ingest {α Tok : Type} (C : FeatCfg α)
    (hfs : 1 ≤ C.frameShift) (hfl : 1 ≤ C.frameLength)
    (hlen : FbankLen C) (hloc : FbankLocal C) (hsh : FbankShift C)
    (chunks : List (List α)) :
    IncInv C (ingest C true chunks : DStream α Tok) := by
  unfold ingest
  suffices h : ∀ s : DStream α Tok, IncInv C s →
      IncInv C (chunks.foldl (fun s c => acceptWaveform C c s) s) by
    exact h _ (IncInv_init C hfl hlen)
  induction chunks with
  | nil => exact fun s hs => hs
  | cons c cs ih =>
    intro s hs
    rw [List.foldl_cons]
    exact ih _ (IncInv_accept C hfs hfl hlen hloc hsh c s hs)

theorem flatten_ingest {α Tok : Type} (C : FeatCfg α) (inc : Bool)
    (chunks : List (List α)) :
    (ingest C inc chunks : DStream α Tok).audioSamples.flatten = chunks.flatten := by
  unfold ingest
  suffices h : ∀ s : DStream α Tok,
      (chunks.foldl (fun s c => acceptWaveform C c s) s).audioSamples.flatten =
        s.audioSamples.flatten ++ chunks.flatten by
    rw [h]
    rfl
  induction chunks with
  | nil => intro s; simp
  | cons c cs ih =>
    intro s
    rw [List.foldl_cons, ih, flatten_acceptWaveform]
    simp

theorem audio_ne_incrCompute {α Tok : Type} (C : FeatCfg α) (s : DStream α Tok)
    (h : s.audioSamples ≠ []) : (incrCompute C s).audioSamples ≠ [] := by
  unfold incrCompute
  split
  · split
    · simp
    · exact h
  · split
    · split
      · simp
      · simp
    · exact h

theorem audio_ne_computeFeaturesIncremental {α Tok : Type} (C : FeatCfg α)
    (s : DStream α Tok) (h : s.audioSamples ≠ []) :
    (computeFeaturesIncremental C s).audioSamples ≠ [] := by
  unfold computeFeaturesIncremental
  rw [if_neg (by simpa using h)]
  have h1 : (incrPad C (incrCompute C s)).audioSamples =
      (incrCompute C s).audioSamples := by
    unfold incrPad
    split
    · split <;> rfl
    · rfl
  have h2 : (incrFrames (incrPad C (incrCompute C s))).audioSamples =
      (incrPad C (incrCompute C s)).audioSamples := by
    unfold incrFrames
    split <;> rfl
  rw [h2, h1]
  exact audio_ne_incrCompute C s h

theorem audio_ne_acceptWaveform {α Tok : Type} (C : FeatCfg α) (w : List α)
    (s : DStream α Tok) : (acceptWaveform C w s).audioSamples ≠ [] := by
  unfold acceptWaveform
  split
  · exact audio_ne_computeFeaturesIncremental C _ (by simp)
  · rw [audio_recomputeFeatures]
    simp

theorem audio_ne_ingest {α Tok : Type} (C : FeatCfg α) (inc : Bool)
    (chunks : List (List α)) (h : chunks ≠ []) :
    (ingest C inc chunks : DStream α Tok).audioSamples ≠ [] := by
  have haux : ∀ (cs : List (List α)) (s : DStream α Tok), s.audioSamples ≠ [] →
      (cs.foldl (fun s c => acceptWaveform C c s) s).audioSamples ≠ [] := by
    intro cs
    induction cs with
    | nil => exact fun s hs => hs
    | cons c cs ih =>
      intro s hs
      rw [List.foldl_cons]
      exact ih _ (audio_ne_acceptWaveform C c s)
  cases chunks with
  | nil => exact absurd rfl h
  | cons c cs =>
    unfold ingest
    rw [List.foldl_cons]
    exact haux cs _ (audio_ne_acceptWaveform C c _)

theorem incrPad_fin_zero {α Tok : Type} (C : FeatCfg α) (s : DStream α Tok)
    (h1 : s.isInputFinished = true) (h0 : ¬ 0 < s.numStableFrames) :
    incrPad C s =
      { s with features :=
          List.replicate (C.padLength + 30) (List.replicate 80 C.logEps) } := by
  unfold incrPad
  rw [if_pos h1, if_neg h0]

theorem incrPad_fin_pos {α Tok : Type} (C : FeatCfg α) (s : DStream α Tok)
    (h1 : s.isInputFinished = true) (h0 : 0 < s.numStableFrames) :
    incrPad C s =
      { s with features := padTail s.features (C.padLength + 30) C.logEps } := by
  unfold incrPad
  rw [if_pos h1, if_pos h0]

theorem incrFrames_fin {α Tok : Type} (s : DStream α Tok)
    (h : s.isInputFinished = true) :
    incrFrames s = { s with numFrames := s.features.length } := by
  unfold incrFrames
  rw [if_pos (Or.inl h)]

theorem full_one_chunk {α Tok : Type} (C : FeatCfg α) (signal : List α) :
    (acceptWaveform C signal (DStream.init false) : DStream α Tok).features =
        C.fbank signal ∧
    (acceptWaveform C signal (DStream.init false) : DStream α Tok).audioSamples =
        [signal] ∧
    (acceptWaveform C signal (DStream.init false) : DStream α Tok).isInputFinished =
        false ∧
    (acceptWaveform C signal (DStream.init false) : DStream α Tok).incremental =
        false := by
  unfold acceptWaveform recomputeFeatures DStream.init
  simp

theorem full_finish_features {α Tok : Type} (C : FeatCfg α) (s : DStream α Tok)
    (hinc : s.incremental = false) (hne : s.audioSamples ≠ []) :
    (streamInputFinished C s).features =
      padTail (C.fbank s.audioSamples.flatten) (C.padLength + 30) C.logEps := by
  unfold streamInputFinished
  rw [if_neg (by simp [hinc])]
  unfold recomputeFeatures
  rw [if_neg (by simpa using hne)]
  rw [if_pos rfl]

theorem inc_finish_features {α Tok : Type} (C : FeatCfg α)
    (hfs : 1 ≤ C.frameShift) (hfl : 1 ≤ C.frameLength) (hlen : FbankLen C)
    (s : DStream α Tok) (hinv : IncInv C s) (hne : s.audioSamples ≠ []) :
    (streamInputFinished C s).features =
      padTail (C.fbank s.audioSamples.flatten) (C.padLength + 30) C.logEps := by
  obtain ⟨hinc, hfin, htot, hfeat, hstab, hnum⟩ := hinv
  have hfin3 : streamInputFinished C s =
      computeFeaturesIncremental C { s with isInputFinished := true } := by
    unfold streamInputFinished
    rw [if_pos hinc]
  rw [hfin3]
  set s3 : DStream α Tok := { s with isInputFinished := true } with hs3
  have hs3flat : s3.audioSamples.flatten = s.audioSamples.flatten := rfl
  have hs3fin : s3.isInputFinished = true := rfl
  have hcfi : computeFeaturesIncremental C s3 =
      incrFrames (incrPad C (incrCompute C s3)) := by
    unfold computeFeaturesIncremental
    rw [if_neg (by simpa using hne)]
  rw [hcfi]
  by_cases hcase : s.numStableFrames = 0
  · have hfeat0 : s.features = [] := by
      rw [← List.length_eq_zero]
      omega
    have hfb0 : C.fbank s.audioSamples.flatten = [] := by
      rw [← hfeat]
      exact hfeat0
    have hlt : s.audioSamples.flatten.length < C.frameLength := by
      by_contra hge
      have h1 : 0 < (C.fbank s.audioSamples.flatten).length := by
        rw [hlen]
        exact numFramesOf_pos C (by omega)
      rw [hfb0] at h1
      exact absurd h1 (by simp)
    rw [incrCompute_small C s3 hcase (by show ¬ C.frameLength ≤ s.totalAudioSamples; omega)]
    rw [incrPad_fin_zero C s3 hs3fin (by show ¬ 0 < s.numStableFrames; omega)]
    rw [features_incrFrames]
    show List.replicate (C.padLength + 30) (List.replicate 80 C.logEps) =
      padTail (C.fbank s.audioSamples.flatten) (C.padLength + 30) C.logEps
    rw [hfb0]
    unfold padTail featWidth
    simp
  · have hmpos : 0 < s.numStableFrames := by omega
    have hmlen : s.numStableFrames = numFramesOf C s.audioSamples.flatten.length := by
      rw [hstab, hfeat, hlen]
    have hflen : C.frameLength ≤ s.audioSamples.flatten.length := by
      by_contra hno
      rw [numFramesOf_eq_zero C (by omega)] at hmlen
      omega
    have hmeq : s.numStableFrames =
        (s.audioSamples.flatten.length - C.frameLength) / C.frameShift + 1 := by
      rw [hmlen]
      unfold numFramesOf
      rw [if_neg (by omega)]
    obtain ⟨hov, hwait⟩ := stable_wait C hfs hflen hmeq
    rw [features_incrCompute_wait C s3 hmpos
      (by show ((s.totalAudioSamples : ℤ) - _) < _; rw [htot]; exact hwait)]
    rw [incrPad_fin_pos C s3 hs3fin hmpos]
    rw [features_incrFrames]
    show padTail s.features (C.padLength + 30) C.logEps =
      padTail (C.fbank s.audioSamples.flatten) (C.padLength + 30) C.logEps
    rw [hfeat]

/-- C1: for every audio signal and every way of splitting it into (at least
one) chunks, the feature sequence held after ingesting all chunks in
incremental mode is frame-for-frame identical to the one produced by
full-recompute mode ingesting the same signal as one chunk — both before
and after `input_finished` — given the extractor contract of spec
section 4.1 (frame-count law, window locality, one-frame-overlap
shift law). -/
theorem claim_C1_incremental_equals_full {α Tok : Type} (C : FeatCfg α)
    (hfs : 1 ≤ C.frameShift) (hfl : 1 ≤ C.frameLength)
    (hlen : FbankLen C) (hloc : FbankLocal C) (hsh : FbankShift C)
    (signal : List α) (chunks : List (List α))
    (hne : chunks ≠ []) (hsplit : chunks.flatten = signal) :
    (ingest C true chunks : DStream α Tok).features =
      (acceptWaveform C signal (DStream.init false) : DStream α Tok).features ∧
    (streamInputFinished C (ingest C true chunks : DStream α Tok)).features =
      (streamInputFinished C
        (acceptWaveform C signal (DStream.init false) : DStream α Tok)).features := by
  have hinv := @IncInv_ingest α Tok C hfs hfl hlen hloc hsh chunks
  have hfull := @full_one_chunk α Tok C signal
  constructor
  · rw [hinv.2.2.2.1, flatten_ingest, hsplit, hfull.1]
  · rw [inc_finish_features C hfs hfl hlen _ hinv
      (audio_ne_ingest C true chunks hne)]
    rw [full_finish_features C _ hfull.2.2.2
      (by rw [hfull.2.1]; simp)]
    rw [flatten_ingest, hsplit, hfull.2.1]
    simp

/-- Witness for C1 at the concrete windowed-sum extractor: the signal
`[1, ..., 7]` split as `[[1], [2, 3], [4, 5, 6, 7]]`. -/
theorem claim_C1_incremental_equals_full_witness :
    (ingest toyCfg true [[1], [2, 3], [4, 5, 6, 7]] : DStream ℤ ℤ).features =
      (acceptWaveform toyCfg [1, 2, 3, 4, 5, 6, 7]
        (DStream.init false) : DStream ℤ ℤ).features ∧
    (streamInputFinished toyCfg
        (ingest toyCfg true [[1], [2, 3], [4, 5, 6, 7]] : DStream ℤ ℤ)).features =
      (streamInputFinished toyCfg
        (acceptWaveform toyCfg [1, 2, 3, 4, 5, 6, 7]
          (DStream.init false) : DStream ℤ ℤ)).features :=
  claim_C1_incremental_equals_full toyCfg (by decide) (by decide)
    toy_len toy_local toy_shift [1, 2, 3, 4, 5, 6, 7] [[1], [2, 3], [4, 5, 6, 7]]
    (by decide) (by decide)

theorem decodeAux_preserves {α Tok Text : Type} (M : ModelCtx α Tok Text) :
    ∀ (fuel : Nat) (s : DStream α Tok),
      (decodeAvailableAux M fuel s).1.features = s.features ∧
      (decodeAvailableAux M fuel s).1.audioSamples = s.audioSamples ∧
      (decodeAvailableAux M fuel s).1.numFrames = s.numFrames ∧
      (decodeAvailableAux M fuel s).1.isInputFinished = s.isInputFinished
  | 0, s => ⟨rfl, rfl, rfl, rfl⟩
  | fuel + 1, s => by
    unfold decodeAvailableAux
    split
    · split
      · exact ⟨rfl, rfl, rfl, rfl⟩
      · exact decodeAux_preserves M fuel _
    · exact ⟨rfl, rfl, rfl, rfl⟩

theorem decodeAux_emissions {α Tok Text : Type} (M : ModelCtx α Tok Text) :
    ∀ (fuel : Nat) (s : DStream α Tok),
      (decodeAvailableAux M fuel s).2 =
        (decodeTrace M fuel s).map (fun st => M.detok (decodingResult st))
  | 0, _ => rfl
  | fuel + 1, s => by
    unfold decodeAvailableAux decodeTrace
    split
    · split
      · rfl
      · rw [List.map_cons]
        rw [← decodeAux_emissions M fuel _]
    · rfl

theorem decodeTrace_chain {α Tok Text : Type} (M : ModelCtx α Tok Text) :
    ∀ (fuel : Nat) (s : DStream α Tok),
      List.Chain' (fun a b => ∃ ts : List Tok, b.hyp = a.hyp ++ ts)
        (s :: decodeTrace M fuel s)
  | 0, s => by simp [decodeTrace]
  | fuel + 1, s => by
    unfold decodeTrace
    split
    · split
      · simp
      · rw [List.chain'_cons]
        exact ⟨⟨M.oracleTok s, rfl⟩, decodeTrace_chain M fuel _⟩
    · simp

theorem isReady_false_of_exhausted {α Tok Text : Type} (M : ModelCtx α Tok Text)
    (hchunk : 1 ≤ M.chunkSize) (s : DStream α Tok)
    (h : s.numFrames ≤ s.numProcessedFrames) :
    isReady M.C M.chunkSize s = false := by
  unfold isReady
  rw [decide_eq_false_iff_not]
  omega

theorem decodeAux_fuel {α Tok Text : Type} (M : ModelCtx α Tok Text)
    (hchunk : 1 ≤ M.chunkSize) :
    ∀ (fuel k : Nat) (s : DStream α Tok),
      s.numFrames ≤ s.numProcessedFrames + fuel →
      decodeAvailableAux M (fuel + k) s = decodeAvailableAux M fuel s := by
  intro fuel
  induction fuel with
  | zero =>
    intro k s hs
    have hg : isReady M.C M.chunkSize s = false :=
      isReady_false_of_exhausted M hchunk s (by omega)
    cases k with
    | zero => rfl
    | succ k =>
      rw [Nat.zero_add]
      show decodeAvailableAux M (k + 1) s = decodeAvailableAux M 0 s
      unfold decodeAvailableAux
      rw [hg]
      rfl
  | succ fuel ih =>
    intro k s hs
    have e : fuel + 1 + k = (fuel + k) + 1 := by omega
    rw [e]
    by_cases hg : (isReady M.C M.chunkSize s && !s.done) = true
    · have hready : isReady M.C M.chunkSize s = true := by
        have hg2 := hg
        rw [Bool.and_eq_true] at hg2
        exact hg2.1
      have hord : s.numProcessedFrames + 2 * M.chunkSize ≤ s.numFrames := by
        unfold isReady at hready
        rw [decide_eq_true_iff] at hready
        omega
      have hrec : (decodeOneChunk M s).1.numFrames ≤
          (decodeOneChunk M s).1.numProcessedFrames + fuel := by
        show s.numFrames ≤ s.numProcessedFrames + 2 * M.chunkSize + fuel
        omega
      unfold decodeAvailableAux
      rw [if_pos hg, if_pos hg]
      by_cases hfl2 : (decodeOneChunk M s).2 = true
      · rw [if_pos hfl2, if_pos hfl2]
      · rw [if_neg hfl2, if_neg hfl2, ih k _ hrec]
    · have hg' : (isReady M.C M.chunkSize s && !s.done) = false :=
        Bool.eq_false_iff.mpr hg
      unfold decodeAvailableAux
      rw [hg']
      rfl

theorem decode_preserves {α Tok Text : Type} (M : ModelCtx α Tok Text)
    (s : DStream α Tok) :
    (decodeAvailable M s).1.features = s.features ∧
    (decodeAvailable M s).1.audioSamples = s.audioSamples ∧
    (decodeAvailable M s).1.numFrames = s.numFrames ∧
    (decodeAvailable M s).1.isInputFinished = s.isInputFinished :=
  decodeAux_preserves M _ s

theorem decode_emissions {α Tok Text : Type} (M : ModelCtx α Tok Text)
    (s : DStream α Tok) :
    (decodeAvailable M s).2 =
      (decodeTrace M (s.numFrames + 1) s).map
        (fun st => M.detok (decodingResult st)) :=
  decodeAux_emissions M _ s

theorem flatten_streamInputFinished {α Tok : Type} (C : FeatCfg α) (s : DStream α Tok) :
    (streamInputFinished C s).audioSamples.flatten = s.audioSamples.flatten := by
  unfold streamInputFinished
  split
  · rw [flatten_computeFeaturesIncremental]
  · rw [audio_recomputeFeatures]

theorem finished_incrPad {α Tok : Type} (C : FeatCfg α) (s : DStream α Tok) :
    (incrPad C s).isInputFinished = s.isInputFinished := by
  unfold incrPad
  split
  · split <;> rfl
  · rfl

theorem finished_incrFrames {α Tok : Type} (s : DStream α Tok) :
    (incrFrames s).isInputFinished = s.isInputFinished := by
  unfold incrFrames
  split <;> rfl

theorem finished_streamInputFinished {α Tok : Type} (C : FeatCfg α)
    (s : DStream α Tok) :
    (streamInputFinished C s).isInputFinished = true := by
  unfold streamInputFinished
  split
  · unfold computeFeaturesIncremental
    split
    · rfl
    · rw [finished_incrFrames, finished_incrPad, finished_incrCompute]
  · unfold recomputeFeatures
    split
    · rfl
    · split <;> rfl

theorem finish_pad_suffix {α Tok : Type} (C : FeatCfg α) (s : DStream α Tok)
    (hne : s.audioSamples ≠ []) :
    ∃ (body : List (List α)) (w : Nat),
      (streamInputFinished C s).features =
        body ++ List.replicate (C.padLength + 30) (List.replicate w C.logEps) := by
  unfold streamInputFinished
  split
  · unfold computeFeaturesIncremental
    rw [if_neg (by simpa using hne)]
    rw [features_incrFrames]
    by_cases hup : 0 < (incrCompute C { s with isInputFinished := true }).numStableFrames
    · rw [incrPad_fin_pos C _ (by rw [finished_incrCompute]) hup]
      exact ⟨_, _, rfl⟩
    · rw [incrPad_fin_zero C _ (by rw [finished_incrCompute]) hup]
      exact ⟨[], 80, by simp⟩
  · unfold recomputeFeatures
    rw [if_neg (by simpa using hne), if_pos rfl]
    exact ⟨_, _, rfl⟩

/-- C5: `Model.input_finished` appends exactly `int(0.3 * sample_rate)`
zero samples to the raw audio buffer, triggers stream termination — which
right-pads the feature sequence with exactly `pad_length + 30` rows of the
sentinel value — runs the decode-while-ready scheduler loop to exhaustion
(giving the loop more fuel changes nothing when the chunk size is
positive), and returns the detokenized final hypothesis of the resulting
stream. -/
theorem claim_C5_input_finished {α Tok Text : Type} (M : ModelCtx α Tok Text)
    (hchunk : 1 ≤ M.chunkSize)
    (sess : Session α Tok Text) (s : DStream α Tok)
    (hstream : sess.stream = some s) :
    ∃ (s₂ : DStream α Tok) (sess' : Session α Tok Text) (t : Text),
      s₂ = streamInputFinished M.C (acceptWaveform M.C
        (List.replicate (M.sampleRate * 3 / 10) M.zeroSample) s) ∧
      modelInputFinished M sess = .ok (sess', t) ∧
      sess'.stream = some (decodeAvailable M s₂).1 ∧
      t = M.detok (decodingResult (decodeAvailable M s₂).1) ∧
      (decodeAvailable M s₂).1.isInputFinished = true ∧
      (decodeAvailable M s₂).1.audioSamples.flatten =
        s.audioSamples.flatten ++
          List.replicate (M.sampleRate * 3 / 10) M.zeroSample ∧
      (∃ (body : List (List α)) (w : Nat),
        (decodeAvailable M s₂).1.features =
          body ++ List.replicate (M.C.padLength + 30)
            (List.replicate w M.C.logEps)) ∧
      (∀ k : Nat, decodeAvailableAux M (s₂.numFrames + 1 + k) s₂ =
        decodeAvailable M s₂) := by
  have hrun : modelInputFinished M sess = .ok
      ({ stream := some (decodeAvailable M (streamInputFinished M.C
           (acceptWaveform M.C
             (List.replicate (M.sampleRate * 3 / 10) M.zeroSample) s))).1,
         emitted := sess.emitted ++ (decodeAvailable M (streamInputFinished M.C
           (acceptWaveform M.C
             (List.replicate (M.sampleRate * 3 / 10) M.zeroSample) s))).2 },
       M.detok (decodingResult (decodeAvailable M (streamInputFinished M.C
         (acceptWaveform M.C
           (List.replicate (M.sampleRate * 3 / 10) M.zeroSample) s))).1)) := by
    unfold modelInputFinished
    rw [hstream]
  refine ⟨streamInputFinished M.C (acceptWaveform M.C
      (List.replicate (M.sampleRate * 3 / 10) M.zeroSample) s),
    _, _, rfl, hrun, rfl, rfl, ?_, ?_, ?_, ?_⟩
  · rw [(decode_preserves M _).2.2.2, finished_streamInputFinished]
  · rw [(decode_preserves M _).2.1, flatten_streamInputFinished,
      flatten_acceptWaveform]
  · obtain ⟨body, w, hbw⟩ := finish_pad_suffix M.C
      (acceptWaveform M.C (List.replicate (M.sampleRate * 3 / 10) M.zeroSample) s)
      (audio_ne_acceptWaveform M.C _ s)
    exact ⟨body, w, by rw [(decode_preserves M _).1]; exact hbw⟩
  · intro k
    exact decodeAux_fuel M hchunk _ k _ (by omega)

/-- Witness for C5 at `toyCtx`: a freshly reset session. -/
theorem claim_C5_input_finished_witness :
    ∃ (s₂ : DStream ℤ ℤ) (sess' : Session ℤ ℤ (List ℤ)) (t : List ℤ),
      s₂ = streamInputFinished toyCtx.C (acceptWaveform toyCtx.C
        (List.replicate (toyCtx.sampleRate * 3 / 10) toyCtx.zeroSample)
        (DStream.init true)) ∧
      modelInputFinished toyCtx sess8 = .ok (sess', t) ∧
      sess'.stream = some (decodeAvailable toyCtx s₂).1 ∧
      t = toyCtx.detok (decodingResult (decodeAvailable toyCtx s₂).1) ∧
      (decodeAvailable toyCtx s₂).1.isInputFinished = true ∧
      (decodeAvailable toyCtx s₂).1.audioSamples.flatten =
        (DStream.init true : DStream ℤ ℤ).audioSamples.flatten ++
          List.replicate (toyCtx.sampleRate * 3 / 10) toyCtx.zeroSample ∧
      (∃ (body : List (List ℤ)) (w : Nat),
        (decodeAvailable toyCtx s₂).1.features =
          body ++ List.replicate (toyCtx.C.padLength + 30)
            (List.replicate w toyCtx.C.logEps)) ∧
      (∀ k : Nat, decodeAvailableAux toyCtx (s₂.numFrames + 1 + k) s₂ =
        decodeAvailable toyCtx s₂) :=
  claim_C5_input_finished toyCtx (by decide) sess8 (DStream.init true) rfl

/-- C7: during `accept_chunk`, after every successful decode step the
partial-result callback is invoked exactly once, in emission order, with
the cumulative detokenized full hypothesis of the stream state after that
step (never a delta), and the call returns the detokenized hypothesis after
all of this chunk's decode steps; along the step trace the token
hypothesis only grows by appending. -/
theorem claim_C7_callback_protocol {α Tok Text : Type} (M : ModelCtx α Tok Text)
    (w : List α) (sess : Session α Tok Text) (s : DStream α Tok)
    (hstream : sess.stream = some s) :
    ∃ (sess' : Session α Tok Text) (t : Text),
      modelAcceptChunk M w sess = .ok (sess', t) ∧
      sess'.emitted = sess.emitted ++
        (decodeTrace M ((acceptWaveform M.C w s).numFrames + 1)
            (acceptWaveform M.C w s)).map
          (fun st => M.detok (decodingResult st)) ∧
      sess'.stream = some (decodeAvailable M (acceptWaveform M.C w s)).1 ∧
      t = M.detok (decodingResult (decodeAvailable M (acceptWaveform M.C w s)).1) ∧
      List.Chain' (fun a b => ∃ ts : List Tok, b.hyp = a.hyp ++ ts)
        (acceptWaveform M.C w s ::
          decodeTrace M ((acceptWaveform M.C w s).numFrames + 1)
            (acceptWaveform M.C w s)) := by
  have hrun : modelAcceptChunk M w sess = .ok
      ({ stream := some (decodeAvailable M (acceptWaveform M.C w s)).1,
         emitted := sess.emitted ++ (decodeAvailable M (acceptWaveform M.C w s)).2 },
       M.detok (decodingResult (decodeAvailable M (acceptWaveform M.C w s)).1)) := by
    unfold modelAcceptChunk
    rw [hstream]
  refine ⟨_, _, hrun, ?_, rfl, rfl, ?_⟩
  · show sess.emitted ++ (decodeAvailable M (acceptWaveform M.C w s)).2 = _
    rw [decode_emissions]
  · exact decodeTrace_chain M _ _

/-- Witness for C7 at `loopCtx`: a 9-sample chunk into a fresh session
triggers one decode step and one callback. -/
theorem claim_C7_callback_protocol_witness :
    ∃ (sess' : Session ℤ ℤ (List ℤ)) (t : List ℤ),
      modelAcceptChunk loopCtx [1, 2, 3, 4, 5, 6, 7, 8, 9]
          (modelReset loopCtx { stream := none, emitted := [] }) = .ok (sess', t) ∧
      sess'.emitted = ([] : List (List ℤ)) ++
        (decodeTrace loopCtx
            ((acceptWaveform loopCtx.C [1, 2, 3, 4, 5, 6, 7, 8, 9]
              (DStream.init true : DStream ℤ ℤ)).numFrames + 1)
            (acceptWaveform loopCtx.C [1, 2, 3, 4, 5, 6, 7, 8, 9]
              (DStream.init true : DStream ℤ ℤ))).map
          (fun st => loopCtx.detok (decodingResult st)) ∧
      sess'.stream = some (decodeAvailable loopCtx
        (acceptWaveform loopCtx.C [1, 2, 3, 4, 5, 6, 7, 8, 9]
          (DStream.init true : DStream ℤ ℤ))).1 ∧
      t = loopCtx.detok (decodingResult (decodeAvailable loopCtx
        (acceptWaveform loopCtx.C [1, 2, 3, 4, 5, 6, 7, 8, 9]
          (DStream.init true : DStream ℤ ℤ))).1) ∧
      List.Chain' (fun a b => ∃ ts : List ℤ, b.hyp = a.hyp ++ ts)
        (acceptWaveform loopCtx.C [1, 2, 3, 4, 5, 6, 7, 8, 9]
            (DStream.init true : DStream ℤ ℤ) ::
          decodeTrace loopCtx
            ((acceptWaveform loopCtx.C [1, 2, 3, 4, 5, 6, 7, 8, 9]
              (DStream.init true : DStream ℤ ℤ)).numFrames + 1)
            (acceptWaveform loopCtx.C [1, 2, 3, 4, 5, 6, 7, 8, 9]
              (DStream.init true : DStream ℤ ℤ))) :=
  claim_C7_callback_protocol loopCtx [1, 2, 3, 4, 5, 6, 7, 8, 9]
    (modelReset loopCtx { stream := none, emitted := [] })
    (DStream.init true) rfl

/-- C4 counterexample: an incremental-mode session whose entire audio (2
samples) is shorter than one analysis window (3 samples, so no stable frame
was ever produced) returns from `input_finished` without error, but with a
feature sequence of 33 frames — the frames of the audio plus the appended
tail silence followed by the padding — not exactly
`pad_length + 30 = 31` sentinel frames and nothing else. -/
theorem claim_C4_counterexample :
    (modelInputFinished toyCtx sess4).toOption.isSome = true ∧
    ((modelInputFinished toyCtx sess4).toOption.map
      (fun p => p.1.stream.map (fun s => s.features.length))) = some (some 33) ∧
    toyCtx.C.padLength + 30 = 31 :=
  ⟨by decide, by decide, by decide⟩

/-- C4 (amended): calling `input_finished` on an incremental-mode session
whose audio is shorter than one analysis window returns a transcript
without error, but — because 0.3 s of zero samples is appended before
termination — the feature sequence is the extractor's output on the
buffered audio plus the appended tail, right-padded with exactly
`pad_length + 30` sentinel frames, rather than the sentinel frames
alone. -/
theorem claim_C4_short_audio_finish {α Tok Text : Type} (M : ModelCtx α Tok Text)
    (hfs : 1 ≤ M.C.frameShift) (hfl : 1 ≤ M.C.frameLength)
    (hlen : FbankLen M.C) (hloc : FbankLocal M.C) (hsh : FbankShift M.C)
    (sess : Session α Tok Text) (s : DStream α Tok)
    (hstream : sess.stream = some s)
    (hinc : s.incremental = true) (hfin : s.isInputFinished = false)
    (hst : s.numStableFrames = 0) (hfeat : s.features = [])
    (hnum : s.numFrames = s.features.length)
    (htot : s.totalAudioSamples = s.audioSamples.flatten.length)
    (hshort : s.audioSamples.flatten.length < M.C.frameLength) :
    ∃ (sess' : Session α Tok Text) (t : Text) (sF : DStream α Tok),
      modelInputFinished M sess = .ok (sess', t) ∧
      sess'.stream = some sF ∧
      t = M.detok (decodingResult sF) ∧
      sF.features = padTail (M.C.fbank (s.audioSamples.flatten ++
          List.replicate (M.sampleRate * 3 / 10) M.zeroSample))
        (M.C.padLength + 30) M.C.logEps := by
  have hIs : IncInv M.C s := by
    refine ⟨hinc, hfin, htot, ?_, ?_, hnum⟩
    · rw [hfeat, fbank_short M.C hlen hshort]
    · rw [hst, hfeat]
      rfl
  have hI1 : IncInv M.C (acceptWaveform M.C
      (List.replicate (M.sampleRate * 3 / 10) M.zeroSample) s) :=
    IncInv_accept M.C hfs hfl hlen hloc hsh _ s hIs
  have hfinfeats := inc_finish_features M.C hfs hfl hlen _ hI1
    (audio_ne_acceptWaveform M.C _ s)
  rw [flatten_acceptWaveform] at hfinfeats
  have hrun : modelInputFinished M sess = .ok
      ({ stream := some (decodeAvailable M (streamInputFinished M.C
           (acceptWaveform M.C
             (List.replicate (M.sampleRate * 3 / 10) M.zeroSample) s))).1,
         emitted := sess.emitted ++ (decodeAvailable M (streamInputFinished M.C
           (acceptWaveform M.C
             (List.replicate (M.sampleRate * 3 / 10) M.zeroSample) s))).2 },
       M.detok (decodingResult (decodeAvailable M (streamInputFinished M.C
         (acceptWaveform M.C
           (List.replicate (M.sampleRate * 3 / 10) M.zeroSample) s))).1)) := by
    unfold modelInputFinished
    rw [hstream]
  refine ⟨_, _, _, hrun, rfl, rfl, ?_⟩
  rw [(decode_preserves M _).1]
  exact hfinfeats

/-- Witness for the amended C4: the session `sess4` (one 2-sample chunk). -/
theorem claim_C4_short_audio_finish_witness :
    ∃ (sess' : Session ℤ ℤ (List ℤ)) (t : List ℤ) (sF : DStream ℤ ℤ),
      modelInputFinished toyCtx sess4 = .ok (sess', t) ∧
      sess'.stream = some sF ∧
      t = toyCtx.detok (decodingResult sF) ∧
      sF.features = padTail (toyCtx.C.fbank (s4.audioSamples.flatten ++
          List.replicate (toyCtx.sampleRate * 3 / 10) toyCtx.zeroSample))
        (toyCtx.C.padLength + 30) toyCtx.C.logEps :=
  claim_C4_short_audio_finish toyCtx (by decide) (by decide)
    toy_len toy_local toy_shift sess4 s4 rfl rfl rfl rfl rfl rfl rfl (by decide)

/-- C8 counterexample: after a completed `input_finished` the session's
stream is finished (state DONE), yet a second `input_finished` call
returns normally — with a transcript — instead of failing loudly. -/
theorem claim_C8_counterexample :
    (sess8b.stream.map (fun s => s.isInputFinished)) = some true ∧
    (modelInputFinished toyCtx sess8b).toOption.isSome = true :=
  ⟨by decide, by decide⟩

/-- C8 (amended): calling `accept_chunk` before `reset` has ever been
called fails loudly and immediately (the session has no stream, so the
call raises); but calling `input_finished` a second time does not fail:
whenever a stream exists — finished or not — `input_finished` returns a
transcript, silently rerunning the whole termination path. -/
theorem claim_C8_lifecycle {α Tok Text : Type} (M : ModelCtx α Tok Text) :
    (∀ (w : List α) (e : List Text),
      modelAcceptChunk M w { stream := none, emitted := e } =
        .error ModelErr.noStream) ∧
    (∀ (sess : Session α Tok Text) (s : DStream α Tok), sess.stream = some s →
      (modelInputFinished M sess).toOption.isSome = true) := by
  constructor
  · intro w e
    rfl
  · intro sess s hs
    unfold modelInputFinished
    rw [hs]
    rfl

/-- Witness for C8: `accept_chunk` on a never-reset session errors, and a
second `input_finished` on the finished session `sess8b` succeeds. -/
theorem claim_C8_lifecycle_witness :
    modelAcceptChunk toyCtx [1] { stream := none, emitted := [] } =
      .error ModelErr.noStream ∧
    (modelInputFinished toyCtx sess8b).toOption.isSome = true := by
  constructor
  · exact (claim_C8_lifecycle toyCtx).1 [1] []
  · cases hx : sess8b.stream with
    | none =>
      have hsome : sess8b.stream.isSome = true := by decide
      rw [hx] at hsome
      exact absurd hsome (by simp)
    | some s => exact (claim_C8_lifecycle toyCtx).2 sess8b s hx

theorem featWidth_eq_80 {α : Type} (feats : List (List α))
    (h : ∀ r ∈ feats, r.length = 80) : featWidth feats = 80 := by
  cases feats with
  | nil => rfl
  | cons a l => exact h a (by simp)

theorem width_padTail {α : Type} (v : α) (n : Nat) (feats : List (List α))
    (h : ∀ r ∈ feats, r.length = 80) :
    ∀ r ∈ padTail feats n v, r.length = 80 := by
  intro r hr
  unfold padTail at hr
  rw [List.mem_append] at hr
  rcases hr with hr | hr
  · exact h r hr
  · rw [List.eq_of_mem_replicate hr, List.length_replicate]
    exact featWidth_eq_80 feats h

theorem width_recomputeFeatures {α Tok : Type} (C : FeatCfg α) (s : DStream α Tok)
    (hfb : ∀ (a : List α) (r : List α), r ∈ C.fbank a → r.length = 80)
    (h : ∀ r ∈ s.features, r.length = 80) :
    ∀ r ∈ (recomputeFeatures C s).features, r.length = 80 := by
  unfold recomputeFeatures
  split
  · exact h
  · split
    · exact width_padTail _ _ _ (fun r hr => hfb _ r hr)
    · exact fun r hr => hfb _ r hr

theorem width_incrCompute {α Tok : Type} (C : FeatCfg α) (s : DStream α Tok)
    (hfb : ∀ (a : List α) (r : List α), r ∈ C.fbank a → r.length = 80)
    (h : ∀ r ∈ s.features, r.length = 80) :
    ∀ r ∈ (incrCompute C s).features, r.length = 80 := by
  unfold incrCompute
  split
  · split
    · exact fun r hr => hfb _ r hr
    · exact h
  · split
    · split
      · intro r hr
        rw [List.mem_append] at hr
        rcases hr with hr | hr
        · exact h r hr
        · exact hfb _ r (List.mem_of_mem_drop hr)
      · exact h
    · exact h

theorem width_incrPad {α Tok : Type} (C : FeatCfg α) (s : DStream α Tok)
    (h : ∀ r ∈ s.features, r.length = 80) :
    ∀ r ∈ (incrPad C s).features, r.length = 80 := by
  unfold incrPad
  split
  · split
    · exact width_padTail _ _ _ h
    · intro r hr
      rw [List.eq_of_mem_replicate hr, List.length_replicate]
  · exact h

theorem width_computeFeaturesIncremental {α Tok : Type} (C : FeatCfg α)
    (s : DStream α Tok)
    (hfb : ∀ (a : List α) (r : List α), r ∈ C.fbank a → r.length = 80)
    (h : ∀ r ∈ s.features, r.length = 80) :
    ∀ r ∈ (computeFeaturesIncremental C s).features, r.length = 80 := by
  unfold computeFeaturesIncremental
  split
  · exact h
  · rw [features_incrFrames]
    exact width_incrPad C _ (width_incrCompute C _ hfb h)

theorem width_acceptWaveform {α Tok : Type} (C : FeatCfg α) (w : List α)
    (s : DStream α Tok)
    (hfb : ∀ (a : List α) (r : List α), r ∈ C.fbank a → r.length = 80)
    (h : ∀ r ∈ s.features, r.length = 80) :
    ∀ r ∈ (acceptWaveform C w s).features, r.length = 80 := by
  unfold acceptWaveform
  split
  · exact width_computeFeaturesIncremental C _ hfb h
  · exact width_recomputeFeatures C _ hfb h

theorem width_streamInputFinished {α Tok : Type} (C : FeatCfg α)
    (s : DStream α Tok)
    (hfb : ∀ (a : List α) (r : List α), r ∈ C.fbank a → r.length = 80)
    (h : ∀ r ∈ s.features, r.length = 80) :
    ∀ r ∈ (streamInputFinished C s).features, r.length = 80 := by
  unfold streamInputFinished
  split
  · exact width_computeFeaturesIncremental C _ hfb h
  · exact width_recomputeFeatures C _ hfb h

/-- C10: every feature frame the stream ever stores has width exactly 80,
for any configuration (in particular whatever `featureDim` says), because
the extractor is constructed with a hard-coded 80 mel bins — modelled by
the kaldifeat contract `hfb` — and the silence-only termination path
hard-codes width 80 as well. -/
theorem claim_C10_frame_width {α Tok Text : Type} (M : ModelCtx α Tok Text)
    (hfb : ∀ (a : List α) (r : List α), r ∈ M.C.fbank a → r.length = 80)
    (s : DStream α Tok) (hs : Reach M s) :
    ∀ r ∈ s.features, r.length = 80 := by
  unfold Reach at hs
  induction hs with
  | refl => intro r hr; exact absurd hr (by simp [DStream.init])
  | tail hab hbc ih =>
    cases hbc with
    | accept w hfin => exact width_acceptWaveform M.C w _ hfb ih
    | finish hfin => exact width_streamInputFinished M.C _ hfb ih
    | decode h1 h2 => exact ih

theorem wide_hfb :
    ∀ (a : List ℤ) (r : List ℤ), r ∈ wideCtx.C.fbank a → r.length = 80 := by
  intro a r hr
  rw [List.eq_of_mem_replicate hr, List.length_replicate]

/-- Witness for C10: one accepted chunk under the width-80 extractor; the
(unique) feature row of the reached state is 80 entries wide. -/
theorem claim_C10_frame_width_witness :
    List.replicate 80 (0 : ℤ) ∈ (acceptWaveform wideCtx.C [1, 2, 3]
        (DStream.init true : DStream ℤ ℤ)).features ∧
    (List.replicate 80 (0 : ℤ)).length = 80 :=
  ⟨by decide,
   claim_C10_frame_width wideCtx wide_hfb _
    (Relation.ReflTransGen.single
      (NextOp.accept (DStream.init true) [1, 2, 3] rfl))
    (List.replicate 80 0) (by decide)⟩

theorem incrCompute_extends {α Tok : Type} (C : FeatCfg α) (s : DStream α Tok)
    (hz : s.numStableFrames = 0 → s.features = []) :
    ∃ new, (incrCompute C s).features = s.features ++ new := by
  unfold incrCompute
  split
  · next h0 =>
    split
    · exact ⟨C.fbank s.audioSamples.flatten, by rw [hz h0]; rfl⟩
    · exact ⟨[], by simp⟩
  · split
    · split
      · exact ⟨_, rfl⟩
      · exact ⟨[], by simp⟩
    · exact ⟨[], by simp⟩

theorem stable_zero_incrCompute {α Tok : Type} (C : FeatCfg α) (s : DStream α Tok)
    (hz : s.numStableFrames = 0 → s.features = []) :
    (incrCompute C s).numStableFrames = 0 → (incrCompute C s).features = [] := by
  unfold incrCompute
  split
  · split
    · intro h0
      exact List.length_eq_zero.mp h0
    · exact hz
  · split
    · split
      · next hn =>
        intro h0
        dsimp only at h0
        exact absurd h0 (by omega)
      · exact hz
    · exact hz

theorem misc_incrCompute {α Tok : Type} (C : FeatCfg α) (s : DStream α Tok) :
    (incrCompute C s).numProcessedFrames = s.numProcessedFrames ∧
    (incrCompute C s).incremental = s.incremental ∧
    (incrCompute C s).numFrames = s.numFrames := by
  unfold incrCompute
  split
  · split
    · exact ⟨rfl, rfl, rfl⟩
    · exact ⟨rfl, rfl, rfl⟩
  · split
    · split
      · exact ⟨rfl, rfl, rfl⟩
      · exact ⟨rfl, rfl, rfl⟩
    · exact ⟨rfl, rfl, rfl⟩

theorem misc_incrPad {α Tok : Type} (C : FeatCfg α) (s : DStream α Tok) :
    (incrPad C s).numProcessedFrames = s.numProcessedFrames ∧
    (incrPad C s).incremental = s.incremental ∧
    (incrPad C s).numFrames = s.numFrames ∧
    (incrPad C s).numStableFrames = s.numStableFrames := by
  unfold incrPad
  split
  · split
    · exact ⟨rfl, rfl, rfl, rfl⟩
    · exact ⟨rfl, rfl, rfl, rfl⟩
  · exact ⟨rfl, rfl, rfl, rfl⟩

theorem misc_incrFrames {α Tok : Type} (s : DStream α Tok) :
    (incrFrames s).numProcessedFrames = s.numProcessedFrames ∧
    (incrFrames s).incremental = s.incremental ∧
    (incrFrames s).features = s.features ∧
    (incrFrames s).numStableFrames = s.numStableFrames := by
  unfold incrFrames
  split
  · exact ⟨rfl, rfl, rfl, rfl⟩
  · exact ⟨rfl, rfl, rfl, rfl⟩

theorem incrPad_extends {α Tok : Type} (C : FeatCfg α) (s : DStream α Tok)
    (hz : s.numStableFrames = 0 → s.features = []) :
    ∃ new, (incrPad C s).features = s.features ++ new := by
  unfold incrPad
  split
  · split
    · exact ⟨_, rfl⟩
    · next h0 =>
      exact ⟨_, by rw [hz (by omega)]; rfl⟩
  · exact ⟨[], by simp⟩

theorem recompute_live {α Tok : Type} (C : FeatCfg α) (s : DStream α Tok)
    (hfin : s.isInputFinished = false) (hne : s.audioSamples ≠ []) :
    recomputeFeatures C s =
      { s with features := C.fbank s.audioSamples.flatten,
               numFrames := (C.fbank s.audioSamples.flatten).length } := by
  unfold recomputeFeatures
  rw [if_neg (by simpa using hne), if_neg (by simp [hfin])]

theorem recompute_fin {α Tok : Type} (C : FeatCfg α) (s : DStream α Tok)
    (hfin : s.isInputFinished = true) (hne : s.audioSamples ≠ []) :
    recomputeFeatures C s =
      { s with
        features := padTail (C.fbank s.audioSamples.flatten)
          (C.padLength + 30) C.logEps,
        numFrames := (padTail (C.fbank s.audioSamples.flatten)
          (C.padLength + 30) C.logEps).length } := by
  unfold recomputeFeatures
  rw [if_neg (by simpa using hne), if_pos hfin]

theorem getElem_pres_of_append {α : Type} (l new : List (List α)) (j : Nat)
    (x : List α) (h : l[j]? = some x) : (l ++ new)[j]? = some x := by
  have hj : j < l.length := by
    by_contra hc
    rw [List.getElem?_eq_none (by omega)] at h
    exact absurd h (by simp)
  rw [List.getElem?_append_left hj]
  exact h

theorem getElem_pres_fbank {α : Type} (C : FeatCfg α) (hloc : FbankLocal C)
    (a b : List α) (j : Nat) (x : List α) (h : (C.fbank a)[j]? = some x) :
    (C.fbank (a ++ b))[j]? = some x := by
  have hj : j < (C.fbank a).length := by
    by_contra hc
    rw [List.getElem?_eq_none (by omega)] at h
    exact absurd h (by simp)
  rw [hloc a b j hj]
  exact h

theorem inc_cfi {α Tok : Type} (C : FeatCfg α) (s : DStream α Tok) :
    (computeFeaturesIncremental C s).incremental = s.incremental := by
  unfold computeFeaturesIncremental
  split
  · rfl
  · rw [(misc_incrFrames _).2.1, (misc_incrPad C _).2.1, (misc_incrCompute C s).2.1]

theorem fin_cfi {α Tok : Type} (C : FeatCfg α) (s : DStream α Tok) :
    (computeFeaturesIncremental C s).isInputFinished = s.isInputFinished := by
  unfold computeFeaturesIncremental
  split
  · rfl
  · rw [finished_incrFrames, finished_incrPad, finished_incrCompute]

theorem baseinv_cfi_live {α Tok : Type} (C : FeatCfg α) (s : DStream α Tok)
    (hfin : s.isInputFinished = false)
    (h2 : s.numFrames = s.features.length)
    (hz : s.numStableFrames = 0 → s.features = []) :
    (∃ new, (computeFeaturesIncremental C s).features = s.features ++ new) ∧
    (computeFeaturesIncremental C s).numFrames =
      (computeFeaturesIncremental C s).features.length ∧
    ((computeFeaturesIncremental C s).numStableFrames = 0 →
      (computeFeaturesIncremental C s).features = []) ∧
    (computeFeaturesIncremental C s).isInputFinished = false ∧
    (computeFeaturesIncremental C s).numProcessedFrames = s.numProcessedFrames := by
  unfold computeFeaturesIncremental
  split
  · exact ⟨⟨[], by simp⟩, h2, hz, hfin, rfl⟩
  · rw [incrPad_not_finished C _ (by rw [finished_incrCompute]; exact hfin)]
    obtain ⟨new, hnew⟩ := incrCompute_extends C s hz
    have hzc := stable_zero_incrCompute C s hz
    have hfinc := finished_incrCompute C s
    have hmisc := misc_incrCompute C s
    by_cases hsp : 0 < (incrCompute C s).numStableFrames
    · rw [incrFrames_pos _ hsp]
      refine ⟨⟨new, hnew⟩, rfl, ?_, ?_, ?_⟩
      · intro h0
        dsimp only at h0
        exact absurd h0 (by omega)
      · show (incrCompute C s).isInputFinished = false
        rw [hfinc]
        exact hfin
      · show (incrCompute C s).numProcessedFrames = s.numProcessedFrames
        exact hmisc.1
    · rw [incrFrames_skip _ (by rw [hfinc]; exact hfin) (by omega)]
      have hf0 : (incrCompute C s).features = [] := hzc (by omega)
      have hsf : s.features = [] := by
        have h9 := hnew
        rw [hf0] at h9
        exact (List.append_eq_nil.mp h9.symm).1
      refine ⟨⟨new, hnew⟩, ?_, fun _ => hf0, by rw [hfinc]; exact hfin, hmisc.1⟩
      rw [hmisc.2.2, hf0, h2, hsf]

theorem baseinv_cfi_fin {α Tok : Type} (C : FeatCfg α) (s : DStream α Tok)
    (hfin : s.isInputFinished = true)
    (h2 : s.numFrames = s.features.length)
    (hz : s.numStableFrames = 0 → s.features = []) :
    (∃ new, (computeFeaturesIncremental C s).features = s.features ++ new) ∧
    (computeFeaturesIncremental C s).numFrames =
      (computeFeaturesIncremental C s).features.length ∧
    (computeFeaturesIncremental C s).numProcessedFrames = s.numProcessedFrames := by
  unfold computeFeaturesIncremental
  split
  · exact ⟨⟨[], by simp⟩, h2, rfl⟩
  · obtain ⟨new1, hnew1⟩ := incrCompute_extends C s hz
    obtain ⟨new2, hnew2⟩ := incrPad_extends C (incrCompute C s)
      (stable_zero_incrCompute C s hz)
    have hfinpad : (incrPad C (incrCompute C s)).isInputFinished = true := by
      rw [finished_incrPad, finished_incrCompute]
      exact hfin
    rw [incrFrames_fin _ hfinpad]
    refine ⟨⟨new1 ++ new2, ?_⟩, rfl, ?_⟩
    · show (incrPad C (incrCompute C s)).features = _
      rw [hnew2, hnew1, List.append_assoc]
    · show (incrPad C (incrCompute C s)).numProcessedFrames = _
      rw [(misc_incrPad C _).1, (misc_incrCompute C s).1]

theorem baseinv_decode {α Tok Text : Type} (M : ModelCtx α Tok Text)
    (s : DStream α Tok) (hI : BaseInv M.C s)
    (hready : isReady M.C M.chunkSize s = true) :
    BaseInv M.C (decodeOneChunk M s).1 ∧
    s.numProcessedFrames ≤ (decodeOneChunk M s).1.numProcessedFrames := by
  obtain ⟨h1, h2, h3, h4⟩ := hI
  have hord : s.numProcessedFrames + 2 * M.chunkSize ≤ s.numFrames := by
    unfold isReady at hready
    rw [decide_eq_true_iff] at hready
    omega
  refine ⟨⟨?_, h2, h3, h4⟩, ?_⟩
  · show s.numProcessedFrames + 2 * M.chunkSize ≤ s.numFrames
    omega
  · show s.numProcessedFrames ≤ s.numProcessedFrames + 2 * M.chunkSize
    omega

theorem baseinv_accept {α Tok Text : Type} (M : ModelCtx α Tok Text)
    (hlen : FbankLen M.C) (hloc : FbankLocal M.C)
    (w : List α) (s : DStream α Tok) (hfin : s.isInputFinished = false)
    (hI : BaseInv M.C s) :
    BaseInv M.C (acceptWaveform M.C w s) ∧
    s.numProcessedFrames ≤ (acceptWaveform M.C w s).numProcessedFrames ∧
    (∀ (j : Nat) (x : List α), s.features[j]? = some x →
      (acceptWaveform M.C w s).features[j]? = some x) := by
  obtain ⟨h1, h2, h3, h4⟩ := hI
  unfold acceptWaveform
  split
  · next hinc =>
    have hb := baseinv_cfi_live M.C
      { s with audioSamples := s.audioSamples ++ [w],
               totalAudioSamples := s.totalAudioSamples + w.length }
      hfin h2 (fun h0 => h4 hinc hfin h0)
    obtain ⟨⟨new, hnew⟩, hb2, hb3, hb4, hb5⟩ := hb
    refine ⟨⟨?_, hb2, ?_, ?_⟩, ?_, ?_⟩
    · rw [hb5, hb2, hnew]
      show s.numProcessedFrames ≤ (s.features ++ new).length
      rw [List.length_append]
      omega
    · intro hi
      rw [inc_cfi] at hi
      exact absurd (hinc.symm.trans hi) (by simp)
    · intro _ _ h0
      exact hb3 h0
    · rw [hb5]
    · intro j x hx
      rw [hnew]
      show (s.features ++ new)[j]? = some x
      exact getElem_pres_of_append _ _ _ _ hx
  · next hinc =>
    have hincf : s.incremental = false := by
      cases hge : s.incremental
      · rfl
      · exact absurd hge hinc
    have hne2 : (({ s with audioSamples := s.audioSamples ++ [w] } :
        DStream α Tok)).audioSamples ≠ [] := by simp
    rw [recompute_live M.C { s with audioSamples := s.audioSamples ++ [w] }
      hfin hne2]
    have hflat2 : (s.audioSamples ++ [w]).flatten = s.audioSamples.flatten ++ w := by
      simp
    rcases h3 hincf hfin with ⟨hae, hfe⟩ | hfe
    · refine ⟨⟨?_, rfl, fun _ _ => Or.inr rfl, ?_⟩, le_refl _, ?_⟩
      · show s.numProcessedFrames ≤
          (M.C.fbank ((s.audioSamples ++ [w]).flatten)).length
        have h9 : s.features.length = 0 := by rw [hfe]; rfl
        omega
      · intro hi
        exact absurd (hincf.symm.trans hi) (by simp)
      · intro j x hx
        rw [hfe] at hx
        exact absurd hx (by simp)
    · refine ⟨⟨?_, rfl, fun _ _ => Or.inr rfl, ?_⟩, le_refl _, ?_⟩
      · show s.numProcessedFrames ≤
          (M.C.fbank ((s.audioSamples ++ [w]).flatten)).length
        have hup : (M.C.fbank s.audioSamples.flatten).length ≤
            (M.C.fbank ((s.audioSamples ++ [w]).flatten)).length := by
          rw [hlen, hlen]
          apply numFramesOf_mono
          rw [hflat2, List.length_append]
          omega
        have h9 : s.numFrames = (M.C.fbank s.audioSamples.flatten).length := by
          rw [h2, hfe]
        omega
      · intro hi
        exact absurd (hincf.symm.trans hi) (by simp)
      · intro j x hx
        rw [hfe] at hx
        show (M.C.fbank ((s.audioSamples ++ [w]).flatten))[j]? = some x
        rw [hflat2]
        exact getElem_pres_fbank M.C hloc _ w j x hx

theorem baseinv_finish {α Tok Text : Type} (M : ModelCtx α Tok Text)
    (hlen : FbankLen M.C) (s : DStream α Tok) (hfin : s.isInputFinished = false)
    (hI : BaseInv M.C s) :
    BaseInv M.C (streamInputFinished M.C s) ∧
    s.numProcessedFrames ≤ (streamInputFinished M.C s).numProcessedFrames ∧
    (∀ (j : Nat) (x : List α), s.features[j]? = some x →
      (streamInputFinished M.C s).features[j]? = some x) := by
  obtain ⟨h1, h2, h3, h4⟩ := hI
  unfold streamInputFinished
  split
  · next hinc =>
    have hb := baseinv_cfi_fin M.C { s with isInputFinished := true } rfl h2
      (fun h0 => h4 hinc hfin h0)
    obtain ⟨⟨new, hnew⟩, hb2, hb3⟩ := hb
    refine ⟨⟨?_, hb2, ?_, ?_⟩, ?_, ?_⟩
    · rw [hb3, hb2, hnew]
      show s.numProcessedFrames ≤ (s.features ++ new).length
      rw [List.length_append]
      omega
    · intro hi
      rw [inc_cfi] at hi
      exact absurd (hinc.symm.trans hi) (by simp)
    · intro _ hf
      rw [fin_cfi] at hf
      exact absurd hf (by simp)
    · rw [hb3]
    · intro j x hx
      rw [hnew]
      show (s.features ++ new)[j]? = some x
      exact getElem_pres_of_append _ _ _ _ hx
  · next hinc =>
    have hincf : s.incremental = false := by
      cases hge : s.incremental
      · rfl
      · exact absurd hge hinc
    by_cases hne : s.audioSamples = []
    · have hret : recomputeFeatures M.C ({ s with isInputFinished := true } :
          DStream α Tok) = { s with isInputFinished := true } := by
        unfold recomputeFeatures
        rw [if_pos (by simp [hne])]
      rw [hret]
      refine ⟨⟨h1, h2, ?_, ?_⟩, le_refl _, fun j x hx => hx⟩
      · intro _ hf
        simp at hf
      · intro _ hf
        simp at hf
    · rw [recompute_fin M.C ({ s with isInputFinished := true } : DStream α Tok)
        rfl hne]
      rcases h3 hincf hfin with ⟨hae, hfe⟩ | hfe
      · exact absurd hae hne
      · refine ⟨⟨?_, rfl, ?_, ?_⟩, le_refl _, ?_⟩
        · show s.numProcessedFrames ≤
            (padTail (M.C.fbank s.audioSamples.flatten)
              (M.C.padLength + 30) M.C.logEps).length
          unfold padTail
          rw [List.length_append]
          have h9 : s.numFrames = (M.C.fbank s.audioSamples.flatten).length := by
            rw [h2, hfe]
          omega
        · intro _ hf
          simp at hf
        · intro _ hf
          simp at hf
        · intro j x hx
          rw [hfe] at hx
          show (padTail (M.C.fbank s.audioSamples.flatten)
            (M.C.padLength + 30) M.C.logEps)[j]? = some x
          unfold padTail
          exact getElem_pres_of_append _ _ _ _ hx

theorem step_full {α Tok Text : Type} (M : ModelCtx α Tok Text)
    (hlen : FbankLen M.C) (hloc : FbankLocal M.C)
    (s s' : DStream α Tok) (hI : BaseInv M.C s) (hstep : NextOp M s s') :
    BaseInv M.C s' ∧ s.numProcessedFrames ≤ s'.numProcessedFrames ∧
    (∀ (j : Nat) (x : List α), s.features[j]? = some x → s'.features[j]? = some x) := by
  cases hstep with
  | accept w hfin => exact baseinv_accept M hlen hloc w s hfin hI
  | finish hfin => exact baseinv_finish M hlen s hfin hI
  | decode h1 h2 =>
    obtain ⟨hb, hm⟩ := baseinv_decode M s hI h1
    exact ⟨hb, hm, fun j x hx => hx⟩

theorem baseinv_init {α Tok : Type} (C : FeatCfg α) (inc : Bool) :
    BaseInv C (DStream.init inc : DStream α Tok) :=
  ⟨Nat.le_refl 0, rfl, fun _ _ => Or.inl ⟨rfl, rfl⟩, fun _ _ _ => rfl⟩

theorem reach_baseinv {α Tok Text : Type} (M : ModelCtx α Tok Text)
    (hlen : FbankLen M.C) (hloc : FbankLocal M.C)
    (s : DStream α Tok) (h : Reach M s) : BaseInv M.C s := by
  unfold Reach at h
  induction h with
  | refl => exact baseinv_init M.C M.incrementalMode
  | tail hab hbc ih => exact (step_full M hlen hloc _ _ ih hbc).1

/-- C9: along a session's life, every legal operation from a reachable
stream state keeps the processed-frames cursor non-decreasing and bounded
by the total frame count, and never removes or alters a previously
committed feature frame — given the extractor contract of spec section 4.1
(frame-count law and window locality). -/
theorem claim_C9_cursor_monotone {α Tok Text : Type} (M : ModelCtx α Tok Text)
    (hlen : FbankLen M.C) (hloc : FbankLocal M.C)
    (s s' : DStream α Tok) (hreach : Reach M s) (hstep : NextOp M s s') :
    s.numProcessedFrames ≤ s'.numProcessedFrames ∧
    s'.numProcessedFrames ≤ s'.numFrames ∧
    (∀ (j : Nat) (x : List α), s.features[j]? = some x → s'.features[j]? = some x) := by
  have hbase : BaseInv M.C s := reach_baseinv M hlen hloc s hreach
  obtain ⟨hb, hm, hp⟩ := step_full M hlen hloc s s' hbase hstep
  exact ⟨hm, hb.1, hp⟩

/-- Witness for C9 at `toyCtx`: the first chunk accepted from a fresh
session. -/
theorem claim_C9_cursor_monotone_witness :
    (DStream.init true : DStream ℤ ℤ).numProcessedFrames ≤
      (acceptWaveform toyCtx.C [1, 2, 3] (DStream.init true : DStream ℤ ℤ)).numProcessedFrames ∧
    (acceptWaveform toyCtx.C [1, 2, 3]
        (DStream.init true : DStream ℤ ℤ)).numProcessedFrames ≤
      (acceptWaveform toyCtx.C [1, 2, 3] (DStream.init true : DStream ℤ ℤ)).numFrames ∧
    (∀ (j : Nat) (x : List ℤ),
      (DStream.init true : DStream ℤ ℤ).features[j]? = some x →
      (acceptWaveform toyCtx.C [1, 2, 3] (DStream.init true : DStream ℤ ℤ)).features[j]? = some x) :=
  claim_C9_cursor_monotone toyCtx toy_len toy_local
    (DStream.init true) (acceptWaveform toyCtx.C [1, 2, 3] (DStream.init true))
    Relation.ReflTransGen.refl
    (NextOp.accept (DStream.init true) [1, 2, 3] rfl)
